import Mathlib

/-!
Verification development for the `asardeuce` archive tool.

This file gives a shallow embedding, in Lean 4, of the core of the
`asardeuce` Python package:

* `src/asardeuce/pickle.py`   — the "Pickle" binary record codec,
* `src/asardeuce/filesystem.py` — the archive reader (header parsing,
  traversal, forward-only streaming, integrity-checked extraction),
* `src/asardeuce/api.py`      — the packaging pipeline (`process_file`,
  `create_index`).

Modelling conventions:

* Python `bytes` / `bytearray` values are modelled as `List Nat`, one entry
  per byte (entries are below 256 for every byte sequence produced by the
  modelled code paths).
* Python integers are `Nat` where the source guarantees non-negativity and
  `Int` where a value can be negative (`Pickle.headerSize`).
* SHA-256 (`hashlib.sha256(...).hexdigest()`) is an external library call;
  the embedding is parametric in a digest function
  `sha : List Nat → String` applied to the accumulated bytes, mirroring how
  the source feeds bytes into a hasher and asks for the hex digest.  The
  literal constant `EMPTY_FILE_HASH` below is copied from the source, where
  it is documented to be the SHA-256 digest of the empty byte string.
* `while` loops are modelled with an explicit fuel parameter; a fuel of
  (number of remaining bytes + 1) is an upper bound on the iteration count
  whenever the loop makes progress, and an `outOfFuel` result corresponds
  to the Python loop not terminating.
-/

namespace Asardeuce

/-! ## Generic byte-level helpers -/

/-- Little-endian serialization of `n` on `k` bytes, as done by
`struct.pack` with formats `<L`/`<Q` (and, for the two's-complement image
of a signed value, `<i`/`<q`).  For `n ≥ 256^k` Python's `struct.pack`
raises `struct.error`; this total model truncates instead, and every
theorem below that relies on the packed value restricts `n` accordingly. -/
def leBytes : Nat → Nat → List Nat
  | 0, _ => []
  | k + 1, n => n % 256 :: leBytes k (n / 256)

/-- Little-endian deserialization, as done by `struct.unpack` with
formats `<L`/`<Q` on a byte string. -/
def unpackLE : List Nat → Nat
  | [] => 0
  | b :: bs => b + 256 * unpackLE bs

/-- `struct.pack("<i", v)` / `struct.pack("<q", v)`: two's-complement
little-endian encoding of an in-range signed value on `k` bytes. -/
def leBytesSigned (k : Nat) (v : Int) : List Nat :=
  leBytes k (v % ((2 : Int) ^ (8 * k))).toNat

/-- `struct.unpack("<i", ...)` on `k` bytes: decode little-endian, then
reinterpret as a signed value. -/
def unpackLESigned (k : Nat) (bs : List Nat) : Int :=
  let n := unpackLE bs
  if n < 2 ^ (8 * k - 1) then (n : Int) else (n : Int) - 2 ^ (8 * k)

/-- Python slice assignment `l[start : start + data.length] = data` on a
`bytearray`.  When the range reaches past the end of `l` the remaining
bytes of `data` are appended (Python clamps slice bounds), which is exactly
what `take`/`drop` give. -/
def setSlice (l : List Nat) (start : Nat) (data : List Nat) : List Nat :=
  l.take start ++ data ++ l.drop (start + data.length)

/-- Python `bytearray.ljust(width)`: pad on the right up to `width` with
the default fill byte, which is an ASCII space (0x20), not a zero byte. -/
def ljustBytes (l : List Nat) (width : Nat) : List Nat :=
  l ++ List.replicate (width - l.length) 0x20

/-! ## The Pickle codec (`src/asardeuce/pickle.py`) -/

/-- `align_int(i, alignment)` from `pickle.py`, for non-negative `i`. -/
def align_int (i alignment : Nat) : Nat :=
  i + ((alignment - i % alignment) % alignment)

/-- `align_int(i, alignment)` for a possibly negative `i`.  Python's `%`
with a positive modulus returns a non-negative result, which is `Int` `%` (`Int.emod`). -/
def align_int_signed (i alignment : Int) : Int :=
  i + ((alignment - i % alignment) % alignment)

def PAYLOAD_UNIT : Nat := 64

def CAPACITY_READ_ONLY : Nat := 9007199254740992

/-- State of a `Pickle` object.  `headerSize` is an `Int` because the
buffer-parsing constructor computes `bufferLen - payloadSize`, which can be
negative. -/
structure Pickle where
  header : List Nat
  headerSize : Int
  capacityAfterHeader : Nat
  writeOffset : Nat
deriving DecidableEq, Repr

/-- `Pickle.get_payload_size`: `struct.unpack_from("<L", header)`.  The
source raises `struct.error` when fewer than 4 bytes are present; every
state reachable in the modelled flows has at least 4 header bytes. -/
def Pickle.get_payload_size (p : Pickle) : Nat :=
  unpackLE (p.header.take 4)

/-- `Pickle.set_payload_size`. -/
def Pickle.set_payload_size (p : Pickle) (n : Nat) : Pickle :=
  { p with header := setSlice p.header 0 (leBytes 4 n) }

/-- `Pickle.resize`: note that the Python code appends `new_capacity`
fresh zero bytes to the existing buffer (`self.header += bytearray(new_capacity)`). -/
def Pickle.resize (p : Pickle) (newCapacity : Nat) : Pickle :=
  let c := align_int newCapacity PAYLOAD_UNIT
  { p with header := p.header ++ List.replicate c 0, capacityAfterHeader := c }

/-- `Pickle()` — the empty, writable pickle built by `__init__` with no
buffer argument. -/
def Pickle.create_empty : Pickle :=
  let p : Pickle :=
    { header := [], headerSize := 4, capacityAfterHeader := 0, writeOffset := 0 }
  let p := p.resize PAYLOAD_UNIT
  p.set_payload_size 0

/-- `Pickle(buf)` — the parsing constructor.  Returns `none` exactly when
`struct.unpack_from` would raise because the buffer holds fewer than
4 bytes.  The three conditional fallbacks are modelled in source order. -/
def Pickle.create_from_buffer (buf : List Nat) : Option Pickle :=
  if buf.length < 4 then none
  else
    let payloadSize := unpackLE (buf.take 4)
    let hs0 : Int := (buf.length : Int) - payloadSize
    let hs1 : Int := if hs0 > (buf.length : Int) then 0 else hs0
    let hs2 : Int := if hs1 ≠ align_int_signed hs1 4 then 0 else hs1
    let header := if hs2 = 0 then [] else buf
    some { header := header, headerSize := hs2,
           capacityAfterHeader := CAPACITY_READ_ONLY, writeOffset := 0 }

/-- `Pickle.write_bytes`.  `headerSize` is non-negative on every writable
pickle (it is 4); `Int.toNat` makes the slice arithmetic total. -/
def Pickle.write_bytes (p : Pickle) (data : List Nat) : Pickle :=
  let length := data.length
  let dataLength := align_int length 4
  let newSize := p.writeOffset + dataLength
  let p :=
    if newSize > p.capacityAfterHeader then
      p.resize (max (2 * p.capacityAfterHeader) newSize)
    else p
  let startOffset := p.headerSize.toNat + p.writeOffset
  let header := setSlice p.header startOffset data
  let header := ljustBytes header (startOffset + dataLength)
  let p := { p with header := header }
  let p := p.set_payload_size newSize
  { p with writeOffset := newSize }

def Pickle.write_int (p : Pickle) (v : Int) : Pickle :=
  p.write_bytes (leBytesSigned 4 v)

def Pickle.write_uint32 (p : Pickle) (n : Nat) : Pickle :=
  p.write_bytes (leBytes 4 n)

def Pickle.write_int64 (p : Pickle) (v : Int) : Pickle :=
  p.write_bytes (leBytesSigned 8 v)

def Pickle.write_uint64 (p : Pickle) (n : Nat) : Pickle :=
  p.write_bytes (leBytes 8 n)

/-- `Pickle.write_bool`: `write_int(int(value))`. -/
def Pickle.write_bool (p : Pickle) (b : Bool) : Pickle :=
  p.write_int (if b then 1 else 0)

/-- `Pickle.write_float` packs a Python float to IEEE-754 binary32 with
`struct.pack("<f", value)`.  The IEEE conversion itself is a library
bijection between float32 values and 4-byte patterns; the embedding works
directly with the 32-bit pattern. -/
def Pickle.write_float (p : Pickle) (bits : Nat) : Pickle :=
  p.write_bytes (leBytes 4 bits)

/-- `Pickle.write_double` (`struct.pack("<d", value)`), modelled on the
64-bit IEEE-754 pattern, as for `write_float`. -/
def Pickle.write_double (p : Pickle) (bits : Nat) : Pickle :=
  p.write_bytes (leBytes 8 bits)

/-- `Pickle.__bytes__`: `header[: headerSize + payloadSize]`. -/
def Pickle.toBytes (p : Pickle) : List Nat :=
  p.header.take (p.headerSize.toNat + p.get_payload_size)

/-! ## The Pickle iterator (reader) -/

/-- State of a `PickleIterator`.  `payloadOffset` is `get_header_size()`,
hence an `Int` like `Pickle.headerSize`; it is non-negative on every
iterator the modelled flows create. -/
structure PickleIterator where
  payload : List Nat
  payloadOffset : Int
  readIndex : Nat
  endIndex : Nat
deriving DecidableEq, Repr

/-- `Pickle.create_iterator`. -/
def Pickle.create_iterator (p : Pickle) : PickleIterator :=
  { payload := p.header, payloadOffset := p.headerSize,
    readIndex := 0, endIndex := p.get_payload_size }

/-- `PickleIterator.advance`. -/
def PickleIterator.advance (it : PickleIterator) (size : Nat) : PickleIterator :=
  let alignedSize := align_int size 4
  if it.endIndex < it.readIndex + alignedSize then
    { it with readIndex := it.endIndex }
  else
    { it with readIndex := it.readIndex + alignedSize }

/-- `PickleIterator.read_bytes` (with an explicit byte count).  `none`
models the `RuntimeError("Failed to read data ...")` raised when the read
would run past the declared payload size.  The subtraction
`endIndex - readIndex` matches the source because `readIndex ≤ endIndex`
holds on every reachable iterator state. -/
def PickleIterator.read_bytes (it : PickleIterator) (length : Nat) :
    Option (List Nat × PickleIterator) :=
  if length > it.endIndex - it.readIndex then none
  else
    let readPayloadOffset := (it.payloadOffset + (it.readIndex : Int)).toNat
    let it' := it.advance length
    some ((it.payload.drop readPayloadOffset).take length, it')

def PickleIterator.read_int (it : PickleIterator) : Option (Int × PickleIterator) :=
  (it.read_bytes 4).map (fun r => (unpackLESigned 4 r.1, r.2))

def PickleIterator.read_uint32 (it : PickleIterator) : Option (Nat × PickleIterator) :=
  (it.read_bytes 4).map (fun r => (unpackLE r.1, r.2))

def PickleIterator.read_int64 (it : PickleIterator) : Option (Int × PickleIterator) :=
  (it.read_bytes 8).map (fun r => (unpackLESigned 8 r.1, r.2))

def PickleIterator.read_uint64 (it : PickleIterator) : Option (Nat × PickleIterator) :=
  (it.read_bytes 8).map (fun r => (unpackLE r.1, r.2))

def PickleIterator.read_bool (it : PickleIterator) : Option (Bool × PickleIterator) :=
  (it.read_int).map (fun r => (decide (r.1 ≠ 0), r.2))

/-- `read_float`, at the level of the 32-bit IEEE-754 pattern
(see `Pickle.write_float`). -/
def PickleIterator.read_float (it : PickleIterator) : Option (Nat × PickleIterator) :=
  (it.read_bytes 4).map (fun r => (unpackLE r.1, r.2))

/-- `read_double`, at the level of the 64-bit IEEE-754 pattern. -/
def PickleIterator.read_double (it : PickleIterator) : Option (Nat × PickleIterator) :=
  (it.read_bytes 8).map (fun r => (unpackLE r.1, r.2))

/-! ## UTF-8 (`str.encode("utf-8")` / `bytes.decode("utf-8")`)

The codec's `write_string`/`read_string` call Python's UTF-8 library
routines; both are modelled concretely per the UTF-8 definition.  The
decoder reconstructs code points from lead/continuation bytes; Python's
decoder additionally rejects overlong and surrogate encodings, which never
arise on the outputs of the encoder. -/

def utf8EncodeChar (c : Char) : List Nat :=
  let n := c.toNat
  if n < 0x80 then [n]
  else if n < 0x800 then [0xC0 + n / 0x40, 0x80 + n % 0x40]
  else if n < 0x10000 then
    [0xE0 + n / 0x1000, 0x80 + n / 0x40 % 0x40, 0x80 + n % 0x40]
  else
    [0xF0 + n / 0x40000, 0x80 + n / 0x1000 % 0x40, 0x80 + n / 0x40 % 0x40,
     0x80 + n % 0x40]

def utf8EncodeList : List Char → List Nat
  | [] => []
  | c :: cs => utf8EncodeChar c ++ utf8EncodeList cs

/-- `str.encode("utf-8")`. -/
def utf8Encode (s : String) : List Nat :=
  utf8EncodeList s.data

def utf8DecodeList : List Nat → Option (List Char)
  | [] => some []
  | b :: bs =>
    if b < 0x80 then
      (utf8DecodeList bs).map (fun cs => Char.ofNat b :: cs)
    else if b < 0xC0 then none
    else
      match bs with
      | [] => none
      | b2 :: bs2 =>
        if b < 0xE0 then
          if 0x80 ≤ b2 ∧ b2 < 0xC0 then
            (utf8DecodeList bs2).map
              (fun cs => Char.ofNat ((b - 0xC0) * 0x40 + (b2 - 0x80)) :: cs)
          else none
        else
          match bs2 with
          | [] => none
          | b3 :: bs3 =>
            if b < 0xF0 then
              if (0x80 ≤ b2 ∧ b2 < 0xC0) ∧ (0x80 ≤ b3 ∧ b3 < 0xC0) then
                (utf8DecodeList bs3).map
                  (fun cs => Char.ofNat ((b - 0xE0) * 0x1000 +
                    (b2 - 0x80) * 0x40 + (b3 - 0x80)) :: cs)
              else none
            else
              match bs3 with
              | [] => none
              | b4 :: bs4 =>
                if b < 0xF8 then
                  if (0x80 ≤ b2 ∧ b2 < 0xC0) ∧ (0x80 ≤ b3 ∧ b3 < 0xC0) ∧ (0x80 ≤ b4 ∧ b4 < 0xC0) then
                    (utf8DecodeList bs4).map
                      (fun cs => Char.ofNat ((b - 0xF0) * 0x40000 +
                        (b2 - 0x80) * 0x1000 + (b3 - 0x80) * 0x40 +
                        (b4 - 0x80)) :: cs)
                  else none
                else none

/-- `bytes.decode("utf-8")`; `none` models `UnicodeDecodeError`. -/
def utf8Decode (bs : List Nat) : Option String :=
  (utf8DecodeList bs).map (fun cs => String.mk cs)

/-- `Pickle.write_string`: encode to UTF-8, `write_int` the byte length,
then `write_bytes` the encoded bytes. -/
def Pickle.write_string (p : Pickle) (s : String) : Pickle :=
  let value := utf8Encode s
  (p.write_int value.length).write_bytes value

/-- `PickleIterator.read_string`: read a signed 32-bit length (asserted
non-negative), read that many bytes, decode as UTF-8.  `none` models the
assertion failure, a truncated read, or a decode error. -/
def PickleIterator.read_string (it : PickleIterator) : Option (String × PickleIterator) :=
  match it.read_int with
  | none => none
  | some (size, it') =>
    if size < 0 then none
    else
      match it'.read_bytes size.toNat with
      | none => none
      | some (bs, it'') =>
        match utf8Decode bs with
        | none => none
        | some s => some (s, it'')

/-! ## The directory entry model (`src/asardeuce/filesystem.py`) -/

/-- `BLOCK_SIZE` from `filesystem.py`. -/
def BLOCK_SIZE : Nat := 8192

/-- `EMPTY_FILE_HASH` from `filesystem.py`: the SHA-256 hex digest of the
empty byte string, as a source literal. -/
def EMPTY_FILE_HASH : String :=
  "e3b0c44298fc1c149afbf4c8996fb92427ae41e4649b934ca495991b7852b855"

/-- The `Integrity` pydantic model (post-validation field values). -/
structure Integrity where
  algorithm : String
  hash : String
  blockSize : Nat
  blocks : List String
deriving DecidableEq, Repr

/-- A Python scalar that is either an `int` or a `str`.  `File.offset` is
declared as an `int` (so archive parsing coerces the serialized string back
to a number), but `process_file` assigns `str(offset)` to it without
re-validation, so at packaging time the very same attribute holds a string. -/
inductive PyScalar where
  | ofInt (n : Nat)
  | ofStr (s : String)
deriving DecidableEq, Repr

/-- The numeric view of `File.offset` used by `File.extract`
(`self.filesystem.seek(self.offset)`).  On the extraction path the offset
is always the validated integer; the `ofStr` branch is never exercised
there (in Python it would raise a `TypeError` inside `seek`). -/
def PyScalar.asNat : PyScalar → Nat
  | .ofInt n => n
  | .ofStr _ => 0

/-- Relative paths are modelled as their `pathlib` component lists. -/
abbrev RelPath := List String

/-- The `File` pydantic model (the `filesystem` back-reference is carried
by the functions instead of the record). -/
structure AFile where
  fullpath : RelPath
  size : Nat
  offset : PyScalar
  executable : Bool
  integrity : Integrity
deriving DecidableEq, Repr

/-! ## The archive stream (`Filesystem.seek` / `Filesystem.read`) -/

/-- The archive stream context: the header size recorded at construction,
the forward cursor `position`, the underlying stream (its full byte
content and its OS-level position), plus an instrumentation counter
`readCalls` counting the `fp.read` calls issued (used to state the
"performs no stream reads" property; the source has no such field). -/
structure Fs where
  headerSize : Nat
  position : Nat
  fileData : List Nat
  fpPos : Nat
  readCalls : Nat
deriving DecidableEq, Repr

inductive FsErr where
  | rewind
deriving DecidableEq, Repr

/-- `fp.read(n)` on the underlying stream of a regular file: returns the
next `min(n, remaining)` bytes and advances the OS position. -/
def Fs.fpRead (st : Fs) (n : Nat) : List Nat × Fs :=
  let d := (st.fileData.drop st.fpPos).take n
  (d, { st with fpPos := st.fpPos + d.length, readCalls := st.readCalls + 1 })

/-- `Filesystem.seek` (native-seek branch: the underlying stream is
seekable, so `fp.seek` succeeds and the cursor is updated; the
non-seekable fallback instead discards bytes via `read`).  On a rewind the
`RuntimeError` is raised before any state change, so the state is returned
unchanged alongside the error. -/
def Fs.seek (st : Fs) (position : Nat) : Option FsErr × Fs :=
  let target := position + st.headerSize
  if target < st.position then (some .rewind, st)
  else (none, { st with position := target, fpPos := target })

/-- Python's `data == ''` inside `Filesystem.read`, where `data` is a
`bytes` object and `''` is a `str`: comparing values of different types
with `==` is always `False` in Python, so this guard never fires. -/
def pyBytesEqEmptyStr (_data : List Nat) : Bool := false

inductive ReadRes where
  | ok (chunks : List (List Nat)) (st : Fs)
  | ioError (st : Fs)
  | outOfFuel
deriving DecidableEq, Repr

/-- The `while size > 0` loop of `Filesystem.read`, with fuel.  An
`outOfFuel` result for every fuel value means the Python loop diverges. -/
def Fs.readLoop : Nat → Fs → Nat → ReadRes
  | 0, _, _ => .outOfFuel
  | fuel + 1, st, size =>
    if size > 0 then
      let (data, st') := st.fpRead (min BLOCK_SIZE size)
      if pyBytesEqEmptyStr data then .ioError st'
      else
        let st'' := { st' with position := st'.position + data.length }
        match Fs.readLoop fuel st'' (size - data.length) with
        | .ok chunks stf => .ok (data :: chunks) stf
        | r => r
    else .ok [] st

/-- `Filesystem.read(size)`, with the generator fully consumed (as
`File.extract` and the seek fallback do).  The leading `if not size` yields
one empty chunk for a zero-byte request. -/
def Fs.read (fuel : Nat) (st : Fs) (size : Nat) : ReadRes :=
  if size = 0 then
    match Fs.readLoop fuel st size with
    | .ok chunks stf => .ok ([] :: chunks) stf
    | r => r
  else Fs.readLoop fuel st size

/-! ## Extraction (`File.extract`) -/

inductive ExtractErr where
  | invalidEmptyHash
  | invalidBlock (idx : Nat)
  | invalidHash
  | blockIndexError
  | ioError
deriving DecidableEq, Repr

inductive ExtractRes where
  | ok (written : List Nat) (st : Fs)
  | err (e : ExtractErr) (st : Fs)
  | rewind (st : Fs)
  | outOfFuel
deriving DecidableEq, Repr

/-- The `while total_size > 0` loop of `File.extract`.  Each iteration
streams one block's chunks (writing them out and feeding both hashers) and
compares the block digest with `blocks[block]`; `blockIndexError` models
the `IndexError` Python raises when `blocks` is too short.  On an error
the model drops the `written` prefix, whereas Python's destination file
object has already received those bytes; no theorem below depends on the
partially written output of a failed extraction. -/
def extractLoop (sha : List Nat → String) (f : AFile) :
    Nat → Fs → Nat → Nat → List Nat → List Nat → ExtractRes
  | 0, _, _, _, _, _ => .outOfFuel
  | fuel + 1, st, totalSize, block, globalAcc, written =>
    if totalSize > 0 then
      let blockSize := min f.integrity.blockSize totalSize
      match Fs.read (blockSize + 1) st blockSize with
      | .ok chunks st' =>
        let data := chunks.flatten
        let written' := written ++ data
        let blockAcc := data
        let globalAcc' := globalAcc ++ data
        match f.integrity.blocks.get? block with
        | none => .err .blockIndexError st'
        | some expected =>
          if sha blockAcc ≠ expected then .err (.invalidBlock block) st'
          else
            extractLoop sha f fuel st' (totalSize - blockSize) (block + 1)
              globalAcc' written'
      | .ioError st' => .err .ioError st'
      | .outOfFuel => .outOfFuel
    else
      if sha globalAcc ≠ f.integrity.hash then .err .invalidHash st
      else .ok written st

/-- `File.extract(fp)`.  The destination `fp` is the returned `written`
byte list.  The method first seeks to the file's offset, then
short-circuits zero-size files to the `EMPTY_FILE_HASH` sentinel check
without any stream read. -/
def AFile.extract (sha : List Nat → String) (f : AFile) (st : Fs) : ExtractRes :=
  match st.seek f.offset.asNat with
  | (some .rewind, st') => .rewind st'
  | (none, st') =>
    if f.size = 0 then
      if f.integrity.hash ≠ EMPTY_FILE_HASH ∨ f.integrity.blocks.length ≠ 1 ∨
          f.integrity.blocks.headD "" ≠ EMPTY_FILE_HASH then
        .err .invalidEmptyHash st'
      else .ok [] st'
    else extractLoop sha f (f.size + 1) st' f.size 0 [] []

/-! ## `pathlib` paths (POSIX)

`pathlib` parses a path string into components, dropping empty segments
and `"."` segments while keeping `".."`; `Path.name` is the last component
(or `""` for the empty path `Path(".")`); `Path.parents` is the list of
proper prefixes. -/

/-- Split a character list on `'/'` (the semantics of `str.split("/")`,
written structurally so it evaluates by kernel reduction). -/
def splitSlashAux : List Char → List Char → List String
  | [], acc => [String.mk acc.reverse]
  | c :: cs, acc =>
    if c = '/' then String.mk acc.reverse :: splitSlashAux cs []
    else splitSlashAux cs (c :: acc)

/-- Parse one path string into `pathlib` components: split on the
separator, dropping empty segments and `"."` segments. -/
def parsePath (s : String) : RelPath :=
  (splitSlashAux s.data []).filter (fun seg => seg ≠ "" ∧ seg ≠ ".")

/-- `parent / name`. -/
def pathJoin (parent : RelPath) (name : String) : RelPath :=
  parent ++ parsePath name

/-- `Path.name`. -/
def pathName (p : RelPath) : String :=
  (p.getLast?).getD ""

/-- `Path.parents` (as a set of proper ancestor prefixes; the iteration
order of the Python property is irrelevant for the membership test the
source performs). -/
def pathParents (p : RelPath) : List RelPath :=
  (List.range p.length).map (fun k => p.take k)

/-! ## Archive traversal (`Filesystem.__iter__`) -/

/-- One parsed value of the directory-index JSON, already classified the
way `__iter__` does: a `link` key means symlink, a `files` key means
folder, anything else is a file record. -/
inductive AEntry where
  | link (target : String)
  | folder (children : List (String × AEntry))
  | file (size : Nat) (offset : Nat) (executable : Bool) (integrity : Integrity)

/-- A node as yielded by the traversal. -/
inductive YNode where
  | symlink (fullpath : RelPath) (link : String)
  | folder (fullpath : RelPath)
  | file (fullpath : RelPath) (size : Nat) (offset : Nat) (executable : Bool)
      (integrity : Integrity)
deriving DecidableEq

/-- The three `assert` statements of `__iter__`, in source order:
`os.sep not in name`, `fullpath.name != os.curdir`,
`fullpath.name != os.pardir and pardir not in fullpath.parents`.
On POSIX `os.sep` is the single character `/`, so the substring test is
character containment; paths follow `PurePosixPath` semantics. -/
inductive IterErr where
  | pathSep
  | curdir
  | pardir
  | outOfFuel
deriving DecidableEq, Repr

/-- The work-queue loop of `__iter__`.  The queue holds
`(parent path, remaining children)` pairs; a folder's children are
prepended so the traversal is depth-first pre-order.  Returns the yielded
prefix and, if an assertion failed, the error that aborted the generator. -/
def iterLoop : Nat → List (RelPath × List (String × AEntry)) →
    List YNode × Option IterErr
  | 0, _ => ([], some .outOfFuel)
  | _ + 1, [] => ([], none)
  | fuel + 1, (_, []) :: queue => iterLoop fuel queue
  | fuel + 1, (parent, (name, info) :: rest) :: queue =>
    let fullpath := pathJoin parent name
    if name.data.contains '/' then ([], some .pathSep)
    else if pathName fullpath = "." then ([], some .curdir)
    else if pathName fullpath = ".." ∨ (pathParents fullpath).contains [".."] then
      ([], some .pardir)
    else
      match info with
      | .link target =>
        let (ys, e) := iterLoop fuel ((parent, rest) :: queue)
        (.symlink fullpath target :: ys, e)
      | .folder children =>
        let (ys, e) := iterLoop fuel ((fullpath, children) :: (parent, rest) :: queue)
        (.folder fullpath :: ys, e)
      | .file size offset executable integrity =>
        let (ys, e) := iterLoop fuel ((parent, rest) :: queue)
        (.file fullpath size offset executable integrity :: ys, e)

/-- `Filesystem.__iter__` on a parsed index (`header["files"]`). -/
def iterFs (fuel : Nat) (files : List (String × AEntry)) :
    List YNode × Option IterErr :=
  iterLoop fuel [([], files)]

/-! ## Packaging (`src/asardeuce/api.py`) -/

/-- The `File` entry built by `handle_file` for a regular file before
`process_file` runs: offset 0, the `EMPTY_FILE_HASH` placeholder digest,
and an empty block list. -/
def handleFileEntry (path : RelPath) (size : Nat) (executable : Bool)
    (blockSize : Nat) : AFile :=
  { fullpath := path, size := size, offset := .ofInt 0,
    executable := executable,
    integrity := { algorithm := "SHA256", hash := EMPTY_FILE_HASH,
                   blockSize := blockSize, blocks := [] } }

inductive PFRes where
  | ok (entry : AFile) (tmpfile : List Nat) (offset : Nat) (src : List Nat)
  | prematureEOF
  | outOfFuel
deriving DecidableEq, Repr

/-- The `while sofar < entry.size` loop of `process_file`.  `src` is the
remaining content of the open source file `fp`; the hashers are modelled
by their accumulated byte lists.  Note the source computes

  `block_size = min(entry.integrity.blockSize, entry.size % entry.integrity.blockSize)`

(the file size modulo the block size, a constant), and

  `read_size = block_size - (sofar % entry.integrity.blockSize)`

(a non-negative quantity on every reachable state, so `Nat` subtraction is
exact). -/
def processFileLoop (sha : List Nat → String) (entry : AFile) (offset : Nat) :
    Nat → Nat → List Nat → List Nat → List Nat → List String →
    List Nat → List Nat → PFRes
  | 0, _, _, _, _, _, _, _ => .outOfFuel
  | fuel + 1, sofar, buf, globalAcc, blockAcc, blocks, tmpfile, src =>
    if sofar < entry.size then
      let blockSize := min entry.integrity.blockSize
        (entry.size % entry.integrity.blockSize)
      let readSize := blockSize - sofar % entry.integrity.blockSize
      let data := src.take readSize
      if data = [] then .prematureEOF
      else
        let sofar' := sofar + data.length
        let buf' := buf ++ data
        let tmpfile' := tmpfile ++ data
        let globalAcc' := globalAcc ++ data
        let blockAcc' := blockAcc ++ data
        let (blocks', blockAcc'') :=
          if buf'.length = blockSize then (blocks ++ [sha blockAcc'], [])
          else (blocks, blockAcc')
        processFileLoop sha entry offset fuel sofar' buf' globalAcc' blockAcc''
          blocks' tmpfile' (src.drop data.length)
    else
      let entry' := { entry with
        offset := .ofStr (toString offset),
        integrity := { entry.integrity with
          hash := sha globalAcc, blocks := blocks } }
      .ok entry' tmpfile (offset + entry.size) src

/-- `process_file(tmpfile, offset, entry, fp)`.  A zero-size entry
short-circuits: it appends `EMPTY_FILE_HASH` to `blocks` and returns the
offset unchanged, without touching `fp`, `tmpfile`, `offset`,
`entry.offset` or `entry.integrity.hash`. -/
def process_file (sha : List Nat → String) (tmpfile : List Nat) (offset : Nat)
    (entry : AFile) (src : List Nat) : PFRes :=
  if entry.size ≤ 0 then
    .ok { entry with integrity := { entry.integrity with
            blocks := entry.integrity.blocks ++ [EMPTY_FILE_HASH] } }
      tmpfile offset src
  else
    processFileLoop sha entry offset (entry.size + 1) 0 [] [] []
      entry.integrity.blocks tmpfile src

/-! ## `create_index` -/

/-- A Python value as produced by `model_dump` and assembled into the
nested index dictionary (dictionaries keep insertion order). -/
inductive JVal where
  | num (n : Nat)
  | str (s : String)
  | bool (b : Bool)
  | arr (xs : List JVal)
  | obj (fields : List (String × JVal))

def jScalar : PyScalar → JVal
  | .ofInt n => .num n
  | .ofStr s => .str s

/-- `entry.model_dump(exclude=("fullpath",))` for a `Symlink` (the
`filesystem` field carries `Field(exclude=True)`). -/
def dumpSymlink (target : String) : JVal :=
  .obj [("link", .str target)]

/-- `entry.model_dump(exclude=("fullpath",), serialize_as_any=True)` for a
`File`: every remaining field in declaration order, with the nested
`Integrity` record dumped in full — including `blocks`. -/
def dumpFile (f : AFile) : JVal :=
  .obj [("size", .num f.size),
        ("offset", jScalar f.offset),
        ("executable", .bool f.executable),
        ("integrity", .obj
          [("algorithm", .str f.integrity.algorithm),
           ("hash", .str f.integrity.hash),
           ("blockSize", .num f.integrity.blockSize),
           ("blocks", .arr (f.integrity.blocks.map .str))])]

/-- Look a key up in a dumped object. -/
def jLookup (j : JVal) (key : String) : Option JVal :=
  match j with
  | .obj fields => (fields.lookup key)
  | _ => none

/-- A packaging source entry: the `(Node, fp)` pairs `create_index`
consumes from the walker. -/
inductive PEntry where
  | pfile (f : AFile) (src : List Nat)
  | pfolder (path : RelPath)
  | plink (path : RelPath) (target : String)

/-- Replace the value of an existing key, keeping its position. -/
def updateKey (fields : List (String × JVal)) (key : String) (v : JVal) :
    List (String × JVal) :=
  fields.map (fun kv => if kv.1 = key then (kv.1, v) else kv)

/-- Descend `container = container[parent.name]["files"]` along the
ancestor components and insert `name ↦ v` at the bottom; `none` models the
`KeyError`/`FileExistsError` paths (`create_index` raises
`FileExistsError` when the leaf name is already present). -/
def insertEntry : List (String × JVal) → List String → String → JVal →
    Option (List (String × JVal))
  | container, [], name, v =>
    match container.lookup name with
    | some _ => none
    | none => some (container ++ [(name, v)])
  | container, a :: rest, name, v =>
    match container.lookup a with
    | some (.obj fields) =>
      match fields.lookup "files" with
      | some (.obj inner) =>
        match insertEntry inner rest name v with
        | some inner' =>
          some (updateKey container a (.obj (updateKey fields "files" (.obj inner'))))
        | none => none
      | _ => none
    | _ => none

inductive CIRes where
  | ok (files : List (String × JVal)) (offset : Nat) (tmpfile : List Nat)
  | exists_or_key_error
  | prematureEOF
  | outOfFuel

/-- `create_index(src, tmpfile)`: fold the walker sequence into the nested
`files` mapping, threading the running byte offset and the temporary
payload.  `entry.fullpath.parents[:-1]` reversed is exactly the ancestor
component list `fullpath.dropLast`. -/
def create_index (sha : List Nat → String) :
    List PEntry → List (String × JVal) → Nat → List Nat → CIRes
  | [], files, offset, tmpfile => .ok files offset tmpfile
  | e :: rest, files, offset, tmpfile =>
    match e with
    | .pfolder path =>
      match insertEntry files path.dropLast (pathName path) (.obj [("files", .obj [])]) with
      | some files' => create_index sha rest files' offset tmpfile
      | none => .exists_or_key_error
    | .plink path target =>
      match insertEntry files path.dropLast (pathName path) (dumpSymlink target) with
      | some files' => create_index sha rest files' offset tmpfile
      | none => .exists_or_key_error
    | .pfile f src =>
      match process_file sha tmpfile offset f src with
      | .ok f' tmpfile' offset' _ =>
        match insertEntry files f.fullpath.dropLast (pathName f.fullpath) (dumpFile f') with
        | some files' => create_index sha rest files' offset' tmpfile'
        | none => .exists_or_key_error
      | .prematureEOF => .prematureEOF
      | .outOfFuel => .outOfFuel

/-! ## The `Sha256Hash` validated string type (`filesystem.py`)

`Sha256Hash = Annotated[str, StringConstraints(to_lower=True,
pattern=r&#x27;^[0-9a-fA-F]\x7b64\x7d$&#x27;)]` — pydantic first applies the
`to_lower` transformation (Python `str.lower()`, which for the characters
matched by the pattern is the ASCII case map) and then checks the pattern
against the transformed value. -/

/-- ASCII `str.lower()` on one character (sufficient for every string the
64-hex-digit pattern can accept). -/
def pyLowerChar (c : Char) : Char :=
  if 65 ≤ c.toNat ∧ c.toNat ≤ 90 then Char.ofNat (c.toNat + 32) else c

def pyLower (s : String) : String :=
  String.mk (s.data.map pyLowerChar)

/-- Does one character match `[0-9a-fA-F]`? -/
def isHexChar (c : Char) : Bool :=
  (48 ≤ c.toNat ∧ c.toNat ≤ 57) ∨ (97 ≤ c.toNat ∧ c.toNat ≤ 102) ∨
    (65 ≤ c.toNat ∧ c.toNat ≤ 70)

/-- Validation of a `Sha256Hash` field value: lower-case, then require the
pattern; `some` returns the value stored in the model. -/
def sha256HashValidate (s : String) : Option String :=
  let t := pyLower s
  if t.length = 64 ∧ t.data.all isHexChar then some t else none

/-- `Pickle(buf).create_iterator()`: parse a buffer and position a reader
at its first record. -/
def parseIter (buf : List Nat) : Option PickleIterator :=
  (Pickle.create_from_buffer buf).map Pickle.create_iterator

/-!
# Theorems

First a toolbox of facts about the byte-level helpers, then the claims.
-/

theorem align_int4_ge (n : Nat) : n ≤ align_int n 4 := by
  unfold align_int; omega

theorem align_int4_lt (n : Nat) : align_int n 4 < n + 4 := by
  unfold align_int; omega

theorem align_int4_dvd (n : Nat) : 4 ∣ align_int n 4 := by
  unfold align_int; omega

theorem align_int4_eq_self {n : Nat} (h : n % 4 = 0) : align_int n 4 = n := by
  unfold align_int; omega

theorem leBytes_length (k n : Nat) : (leBytes k n).length = k := by
  induction k generalizing n with
  | zero => rfl
  | succ k ih => simp [leBytes, ih]

theorem unpackLE_leBytes (k n : Nat) (h : n < 256 ^ k) :
    unpackLE (leBytes k n) = n := by
  induction k generalizing n with
  | zero =>
    simp only [Nat.pow_zero, Nat.lt_one_iff] at h
    simp [leBytes, unpackLE, h]
  | succ k ih =>
    have hdiv : n / 256 < 256 ^ k := by
      apply Nat.div_lt_of_lt_mul
      rw [Nat.mul_comm]
      simpa [Nat.pow_succ] using h
    simp only [leBytes, unpackLE, ih _ hdiv]
    omega

theorem unpackLESigned_leBytesSigned_4 (v : Int) (h1 : -(2 ^ 31) ≤ v)
    (h2 : v < 2 ^ 31) :
    unpackLESigned 4 (leBytesSigned 4 v) = v := by
  unfold leBytesSigned unpackLESigned
  have hp : ((2 : Int) ^ (8 * 4)) = 4294967296 := by norm_num
  rw [hp]
  have hlt : (v % 4294967296).toNat < 256 ^ 4 := by
    have := Int.emod_nonneg v (by norm_num : (4294967296 : Int) ≠ 0)
    have := Int.emod_lt_of_pos v (by norm_num : (0 : Int) < 4294967296)
    norm_num
    omega
  rw [unpackLE_leBytes _ _ hlt]
  have h1' := Int.emod_nonneg v (by norm_num : (4294967296 : Int) ≠ 0)
  have h2' := Int.emod_lt_of_pos v (by norm_num : (0 : Int) < 4294967296)
  have hmod : v % 4294967296 = v ∨ v % 4294967296 = v + 4294967296 := by
    omega
  rcases hmod with hm | hm <;> simp only [hm] <;> split <;> omega

theorem unpackLESigned_leBytesSigned_8 (v : Int) (h1 : -(2 ^ 63) ≤ v)
    (h2 : v < 2 ^ 63) :
    unpackLESigned 8 (leBytesSigned 8 v) = v := by
  unfold leBytesSigned unpackLESigned
  have hp : ((2 : Int) ^ (8 * 8)) = 18446744073709551616 := by norm_num
  rw [hp]
  have hlt : (v % 18446744073709551616).toNat < 256 ^ 8 := by
    have := Int.emod_nonneg v (by norm_num : (18446744073709551616 : Int) ≠ 0)
    have := Int.emod_lt_of_pos v (by norm_num : (0 : Int) < 18446744073709551616)
    norm_num
    omega
  rw [unpackLE_leBytes _ _ hlt]
  have h1' := Int.emod_nonneg v (by norm_num : (18446744073709551616 : Int) ≠ 0)
  have h2' := Int.emod_lt_of_pos v
    (by norm_num : (0 : Int) < 18446744073709551616)
  have hmod : v % 18446744073709551616 = v ∨
      v % 18446744073709551616 = v + 18446744073709551616 := by
    omega
  rcases hmod with hm | hm <;> simp only [hm] <;> split <;> omega

theorem char_toNat_ofNat {m : Nat} (h : m.isValidChar) :
    (Char.ofNat m).toNat = m := by
  rw [Char.ofNat, dif_pos h]
  rfl

theorem utf8DecodeList_cons1 (b : Nat) (bs : List Nat) (h : b < 0x80) :
    utf8DecodeList (b :: bs) =
      (utf8DecodeList bs).map (fun cs => Char.ofNat b :: cs) := by
  rw [utf8DecodeList.eq_def]
  dsimp only
  rw [if_pos h]

theorem utf8DecodeList_cons2 (b b2 : Nat) (bs : List Nat)
    (hb : 0xC0 ≤ b ∧ b < 0xE0) (hb2 : 0x80 ≤ b2 ∧ b2 < 0xC0) :
    utf8DecodeList (b :: b2 :: bs) =
      (utf8DecodeList bs).map
        (fun cs => Char.ofNat ((b - 0xC0) * 0x40 + (b2 - 0x80)) :: cs) := by
  rw [utf8DecodeList.eq_def]
  dsimp only
  rw [if_neg (by omega), if_neg (by omega), if_pos (by omega), if_pos hb2]

theorem utf8DecodeList_cons3 (b b2 b3 : Nat) (bs : List Nat)
    (hb : 0xE0 ≤ b ∧ b < 0xF0) (hb2 : 0x80 ≤ b2 ∧ b2 < 0xC0)
    (hb3 : 0x80 ≤ b3 ∧ b3 < 0xC0) :
    utf8DecodeList (b :: b2 :: b3 :: bs) =
      (utf8DecodeList bs).map
        (fun cs => Char.ofNat ((b - 0xE0) * 0x1000 + (b2 - 0x80) * 0x40 +
          (b3 - 0x80)) :: cs) := by
  rw [utf8DecodeList.eq_def]
  dsimp only
  rw [if_neg (by omega), if_neg (by omega), if_neg (by omega),
    if_pos (by omega), if_pos ⟨hb2, hb3⟩]

theorem utf8DecodeList_cons4 (b b2 b3 b4 : Nat) (bs : List Nat)
    (hb : 0xF0 ≤ b ∧ b < 0xF8) (hb2 : 0x80 ≤ b2 ∧ b2 < 0xC0)
    (hb3 : 0x80 ≤ b3 ∧ b3 < 0xC0) (hb4 : 0x80 ≤ b4 ∧ b4 < 0xC0) :
    utf8DecodeList (b :: b2 :: b3 :: b4 :: bs) =
      (utf8DecodeList bs).map
        (fun cs => Char.ofNat ((b - 0xF0) * 0x40000 + (b2 - 0x80) * 0x1000 +
          (b3 - 0x80) * 0x40 + (b4 - 0x80)) :: cs) := by
  rw [utf8DecodeList.eq_def]
  dsimp only
  rw [if_neg (by omega), if_neg (by omega), if_neg (by omega),
    if_neg (by omega), if_pos (by omega), if_pos ⟨hb2, hb3, hb4⟩]

theorem utf8DecodeList_encodeList (cs : List Char) :
    utf8DecodeList (utf8EncodeList cs) = some cs := by
  induction cs with
  | nil => rfl
  | cons c cs ih =>
    have hv : c.toNat < 0xD800 ∨ (0xDFFF < c.toNat ∧ c.toNat < 0x110000) :=
      c.valid
    rw [utf8EncodeList]
    by_cases h1 : c.toNat < 0x80
    · have henc : utf8EncodeChar c = [c.toNat] := by
        simp only [utf8EncodeChar]
        rw [if_pos h1]
      rw [henc]
      simp only [List.cons_append, List.nil_append]
      rw [utf8DecodeList_cons1 _ _ h1, ih, Option.map_some', Char.ofNat_toNat]
    · by_cases h2 : c.toNat < 0x800
      · have henc : utf8EncodeChar c =
            [0xC0 + c.toNat / 0x40, 0x80 + c.toNat % 0x40] := by
          simp only [utf8EncodeChar]
          rw [if_neg h1, if_pos h2]
        rw [henc]
        simp only [List.cons_append, List.nil_append]
        rw [utf8DecodeList_cons2 _ _ _ ⟨by omega, by omega⟩ ⟨by omega, by omega⟩,
          ih, Option.map_some']
        have harg : (0xC0 + c.toNat / 0x40 - 0xC0) * 0x40 +
            (0x80 + c.toNat % 0x40 - 0x80) = c.toNat := by omega
        rw [harg, Char.ofNat_toNat]
      · by_cases h3 : c.toNat < 0x10000
        · have henc : utf8EncodeChar c =
              [0xE0 + c.toNat / 0x1000, 0x80 + c.toNat / 0x40 % 0x40,
               0x80 + c.toNat % 0x40] := by
            simp only [utf8EncodeChar]
            rw [if_neg h1, if_neg h2, if_pos h3]
          rw [henc]
          simp only [List.cons_append, List.nil_append]
          rw [utf8DecodeList_cons3 _ _ _ _ ⟨by omega, by omega⟩
            ⟨by omega, by omega⟩ ⟨by omega, by omega⟩, ih, Option.map_some']
          have harg : (0xE0 + c.toNat / 0x1000 - 0xE0) * 0x1000 +
              (0x80 + c.toNat / 0x40 % 0x40 - 0x80) * 0x40 +
              (0x80 + c.toNat % 0x40 - 0x80) = c.toNat := by omega
          rw [harg, Char.ofNat_toNat]
        · have henc : utf8EncodeChar c =
              [0xF0 + c.toNat / 0x40000, 0x80 + c.toNat / 0x1000 % 0x40,
               0x80 + c.toNat / 0x40 % 0x40, 0x80 + c.toNat % 0x40] := by
            simp only [utf8EncodeChar]
            rw [if_neg h1, if_neg h2, if_neg h3]
          rw [henc]
          simp only [List.cons_append, List.nil_append]
          rw [utf8DecodeList_cons4 _ _ _ _ _ ⟨by omega, by omega⟩
            ⟨by omega, by omega⟩ ⟨by omega, by omega⟩ ⟨by omega, by omega⟩,
            ih, Option.map_some']
          have harg : (0xF0 + c.toNat / 0x40000 - 0xF0) * 0x40000 +
              (0x80 + c.toNat / 0x1000 % 0x40 - 0x80) * 0x1000 +
              (0x80 + c.toNat / 0x40 % 0x40 - 0x80) * 0x40 +
              (0x80 + c.toNat % 0x40 - 0x80) = c.toNat := by omega
          rw [harg, Char.ofNat_toNat]

theorem utf8Decode_encode (s : String) : utf8Decode (utf8Encode s) = some s := by
  cases s with
  | mk data =>
    simp [utf8Decode, utf8Encode, utf8DecodeList_encodeList]

theorem ljustBytes_length (l : List Nat) (w : Nat) :
    (ljustBytes l w).length = max l.length w := by
  simp [ljustBytes]
  omega

/-- The effect of one `write_bytes` on a writable pickle whose header is
`A ++ Z` with `A` covering the payload-size prefix and the bytes written so
far: the serialized buffer gains the (aligned, padded) record `d` at the
end, the payload-size prefix is updated, and the write offset advances by
the aligned length. -/
theorem write_bytes_spec (p : Pickle) (A Z d : List Nat)
    (hhs : p.headerSize = 4) (hhdr : p.header = A ++ Z)
    (hA : A.length = 4 + p.writeOffset)
    (hns : p.writeOffset + align_int d.length 4 < 2 ^ 32) :
    ∃ t Z2,
      (p.write_bytes d).toBytes =
        leBytes 4 (p.writeOffset + align_int d.length 4) ++ A.drop 4 ++ d ++ t
      ∧ t.length = align_int d.length 4 - d.length
      ∧ (p.write_bytes d).header = (p.write_bytes d).toBytes ++ Z2
      ∧ (p.write_bytes d).writeOffset = p.writeOffset + align_int d.length 4
      ∧ (p.write_bytes d).headerSize = 4 := by
  set L := d.length with hLdef
  set dL := align_int L 4 with hdLdef
  have hLdL : L ≤ dL := align_int4_ge L
  set wo := p.writeOffset with hwodef
  set ns := wo + dL with hnsdef
  set p1 := (if ns > p.capacityAfterHeader then
      p.resize (max (2 * p.capacityAfterHeader) ns) else p) with hp1
  have hunf : p.write_bytes d =
      { header := setSlice (ljustBytes
            (setSlice p1.header (p1.headerSize.toNat + p1.writeOffset) d)
            (p1.headerSize.toNat + p1.writeOffset + dL)) 0
          (leBytes 4 ns),
        headerSize := p1.headerSize,
        capacityAfterHeader := p1.capacityAfterHeader,
        writeOffset := ns } := rfl
  have h1hs : p1.headerSize = 4 := by
    rw [hp1]; split <;> simp [Pickle.resize, hhs]
  have h1wo : p1.writeOffset = wo := by
    rw [hp1]; split <;> simp [Pickle.resize, hwodef]
  obtain ⟨W, hW⟩ : ∃ W, p1.header = A ++ W := by
    rw [hp1]; split
    · exact ⟨Z ++ List.replicate (align_int (max (2 * p.capacityAfterHeader) ns)
        PAYLOAD_UNIT) 0, by simp [Pickle.resize, hhdr]⟩
    · exact ⟨Z, hhdr⟩
  have hstart : p1.headerSize.toNat + p1.writeOffset = A.length := by
    rw [h1hs, h1wo]
    simp [hA]
  -- the header after the slice assignment
  have hset : setSlice p1.header (p1.headerSize.toNat + p1.writeOffset) d =
      A ++ d ++ W.drop L := by
    rw [hstart, hW, setSlice, List.take_left' rfl, List.drop_append_eq_append_drop]
    rw [List.drop_eq_nil_of_le (by omega : A.length ≤ A.length + d.length)]
    have h2 : A.length + d.length - A.length = L := by omega
    rw [h2]
    simp
  -- the header after the space padding
  obtain ⟨W2, hlj, hW2len⟩ : ∃ W2,
      ljustBytes (A ++ d ++ W.drop L) (p1.headerSize.toNat + p1.writeOffset + dL)
        = A ++ d ++ W2 ∧ dL ≤ L + W2.length := by
    refine ⟨W.drop L ++ List.replicate
      ((p1.headerSize.toNat + p1.writeOffset + dL) - (A ++ d ++ W.drop L).length)
      0x20, ?_, ?_⟩
    · simp [ljustBytes]
    · rw [hstart]
      simp [List.length_append, List.length_drop]
      omega
  -- the final header, after the payload-size prefix update
  have hfin : setSlice (A ++ d ++ W2) 0 (leBytes 4 ns) =
      leBytes 4 ns ++ (A.drop 4 ++ (d ++ W2)) := by
    rw [setSlice, List.take_zero, Nat.zero_add, leBytes_length, List.nil_append]
    congr 1
    rw [List.append_assoc, List.drop_append_eq_append_drop]
    rw [show 4 - A.length = 0 by omega, List.drop_zero]
  rw [hunf, hset, hlj, hfin]
  have hH4 : (leBytes 4 ns ++ (A.drop 4 ++ (d ++ W2))).take 4 = leBytes 4 ns :=
    List.take_left' (leBytes_length 4 ns)
  have hgps : ∀ (hs : Int) (cap wo' : Nat), (Pickle.get_payload_size
      { header := leBytes 4 ns ++ (A.drop 4 ++ (d ++ W2)),
        headerSize := hs, capacityAfterHeader := cap,
        writeOffset := wo' }) = ns := by
    intro hs cap wo'
    rw [Pickle.get_payload_size]
    simp only [hH4]
    exact unpackLE_leBytes 4 ns (by norm_num at hns ⊢; omega)
  refine ⟨W2.take (dL - L),
    (leBytes 4 ns ++ (A.drop 4 ++ (d ++ W2))).drop (4 + ns), ?_, ?_, ?_, ?_, ?_⟩
  · show (leBytes 4 ns ++ (A.drop 4 ++ (d ++ W2))).take
        (p1.headerSize.toNat + Pickle.get_payload_size _) = _
    rw [hgps, h1hs]
    show (leBytes 4 ns ++ (A.drop 4 ++ (d ++ W2))).take (4 + ns) = _
    rw [List.take_append_eq_append_take,
      List.take_of_length_le (by rw [leBytes_length]; omega),
      leBytes_length, show 4 + ns - 4 = ns from by omega,
      List.take_append_eq_append_take,
      List.take_of_length_le (by rw [List.length_drop, hA]; omega),
      List.length_drop, hA, show ns - (4 + wo - 4) = dL from by omega,
      List.take_append_eq_append_take,
      List.take_of_length_le (by omega : d.length ≤ dL), hLdef.symm,
      show dL - L = dL - L from rfl]
    simp [List.append_assoc]
  · rw [List.length_take]
    omega
  · show _ = Pickle.toBytes _ ++ _
    rw [Pickle.toBytes]
    simp only [h1hs]
    rw [hgps]
    show leBytes 4 ns ++ (A.drop 4 ++ (d ++ W2)) =
      (leBytes 4 ns ++ (A.drop 4 ++ (d ++ W2))).take ((4 : Int).toNat + ns) ++
        (leBytes 4 ns ++ (A.drop 4 ++ (d ++ W2))).drop (4 + ns)
    rw [show ((4 : Int).toNat + ns) = 4 + ns from by simp]
    exact (List.take_append_drop _ _).symm
  · rfl
  · exact h1hs

theorem leBytesSigned_length (k : Nat) (v : Int) :
    (leBytesSigned k v).length = k := by
  rw [leBytesSigned, leBytes_length]

theorem create_from_buffer_spec (B : List Nat) (P : Nat)
    (hB4 : B.take 4 = leBytes 4 P) (hBlen : B.length = 4 + P)
    (hP : P < 2 ^ 32) :
    Pickle.create_from_buffer B = some
      { header := B, headerSize := 4,
        capacityAfterHeader := CAPACITY_READ_ONLY, writeOffset := 0 } := by
  have hps : unpackLE (B.take 4) = P := by
    rw [hB4]
    exact unpackLE_leBytes 4 P (by norm_num at hP ⊢; omega)
  rw [Pickle.create_from_buffer, if_neg (by omega)]
  simp only [hps, hBlen]
  have h0 : ((4 + P : Nat) : Int) - (P : Int) = 4 := by push_cast; omega
  rw [h0]
  have h1 : ¬((4 : Int) > ((4 + P : Nat) : Int)) := by push_cast; omega
  rw [if_neg h1]
  have h2 : ¬((4 : Int) ≠ align_int_signed 4 4) := by decide
  rw [if_neg h2, if_neg (by decide : ¬((4 : Int) = 0))]

theorem create_iterator_spec (B : List Nat) (P : Nat)
    (hB4 : B.take 4 = leBytes 4 P) (hP : P < 2 ^ 32) :
    (Pickle.create_iterator
      { header := B, headerSize := 4,
        capacityAfterHeader := CAPACITY_READ_ONLY, writeOffset := 0 }) =
      { payload := B, payloadOffset := 4, readIndex := 0, endIndex := P } := by
  rw [Pickle.create_iterator]
  have hps : Pickle.get_payload_size
      { header := B, headerSize := 4,
        capacityAfterHeader := CAPACITY_READ_ONLY, writeOffset := 0 } = P := by
    rw [Pickle.get_payload_size]
    simp only
    rw [hB4]
    exact unpackLE_leBytes 4 P (by norm_num at hP ⊢; omega)
  rw [hps]

theorem read_bytes_step (B : List Nat) (P r L : Nat) (hL : L ≤ P - r) :
    PickleIterator.read_bytes
      { payload := B, payloadOffset := 4, readIndex := r, endIndex := P } L
      = some ((B.drop (4 + r)).take L,
          { payload := B, payloadOffset := 4,
            readIndex := if P < r + align_int L 4 then P else r + align_int L 4,
            endIndex := P }) := by
  rw [PickleIterator.read_bytes, if_neg (by simp only; omega)]
  have hoff : ((4 : Int) + ((r : Nat) : Int)).toNat = 4 + r := by omega
  simp only [PickleIterator.advance, hoff]
  split <;> rfl

theorem create_empty_fields :
    Pickle.create_empty.header = [0, 0, 0, 0] ++ List.replicate 60 0
    ∧ Pickle.create_empty.headerSize = 4
    ∧ Pickle.create_empty.writeOffset = 0 := by
  refine ⟨?_, rfl, rfl⟩
  decide

/-- Writing one record on a fresh pickle and re-parsing the produced
buffer: the parsed iterator reads back exactly the record bytes. -/
theorem single_record_read (d : List Nat) (h : d.length + 8 < 2 ^ 32) :
    ∃ B it1, (Pickle.create_empty.write_bytes d).toBytes = B
      ∧ B.length = 4 + align_int d.length 4
      ∧ parseIter B = some
          { payload := B, payloadOffset := 4, readIndex := 0,
            endIndex := align_int d.length 4 }
      ∧ PickleIterator.read_bytes
          { payload := B, payloadOffset := 4, readIndex := 0,
            endIndex := align_int d.length 4 } d.length = some (d, it1) := by
  obtain ⟨hhdr, hhs, hwo⟩ := create_empty_fields
  have hdL := align_int4_ge d.length
  have hdL2 := align_int4_lt d.length
  obtain ⟨t, Z2, hB, htlen, hh2, hw2, hs2⟩ :=
    write_bytes_spec Pickle.create_empty [0, 0, 0, 0] (List.replicate 60 0) d
      hhs hhdr (by simp [hwo]) (by rw [hwo]; omega)
  rw [hwo] at hB
  simp only [Nat.zero_add, List.drop_succ_cons, List.drop_nil, List.drop_zero,
    List.nil_append, List.append_assoc] at hB
  set B := (Pickle.create_empty.write_bytes d).toBytes with hBdef
  have hBlen : B.length = 4 + align_int d.length 4 := by
    rw [hB]
    simp [leBytes_length, List.length_append]
    omega
  have hB4 : B.take 4 = leBytes 4 (align_int d.length 4) := by
    rw [hB]
    exact List.take_left' (leBytes_length _ _)
  have hPlt : align_int d.length 4 < 2 ^ 32 := by omega
  refine ⟨B,
    { payload := B, payloadOffset := 4,
      readIndex := (if align_int d.length 4 < 0 + align_int d.length 4 then
        align_int d.length 4 else 0 + align_int d.length 4),
      endIndex := align_int d.length 4 }, rfl, hBlen, ?_, ?_⟩
  · rw [parseIter, create_from_buffer_spec B _ hB4 hBlen hPlt]
    simp only [Option.map_some']
    rw [create_iterator_spec B _ hB4 hPlt]
  · rw [read_bytes_step B _ 0 d.length (by omega)]
    have hbytes : (B.drop (4 + 0)).take d.length = d := by
      rw [Nat.add_zero, hB, List.drop_left' (leBytes_length _ _),
        List.take_left' rfl]
    rw [hbytes]

/-- Writing a 4-byte record then a second record on a fresh pickle and
re-parsing: the two records read back in order. -/
theorem two_record_read (d4 d : List Nat) (h4 : d4.length = 4)
    (h : d.length + 16 < 2 ^ 32) :
    ∃ B it2, ((Pickle.create_empty.write_bytes d4).write_bytes d).toBytes = B
      ∧ parseIter B = some
          { payload := B, payloadOffset := 4, readIndex := 0,
            endIndex := 4 + align_int d.length 4 }
      ∧ PickleIterator.read_bytes
          { payload := B, payloadOffset := 4, readIndex := 0,
            endIndex := 4 + align_int d.length 4 } 4
          = some (d4,
              { payload := B, payloadOffset := 4, readIndex := 4,
                endIndex := 4 + align_int d.length 4 })
      ∧ PickleIterator.read_bytes
          { payload := B, payloadOffset := 4, readIndex := 4,
            endIndex := 4 + align_int d.length 4 } d.length
          = some (d, it2) := by
  obtain ⟨hhdr, hhs, hwo⟩ := create_empty_fields
  have hdL := align_int4_ge d.length
  have hdL2 := align_int4_lt d.length
  have ha4 : align_int 4 4 = 4 := by decide
  obtain ⟨t1, Z1, hB1, ht1len, hh1, hw1, hs1⟩ :=
    write_bytes_spec Pickle.create_empty [0, 0, 0, 0] (List.replicate 60 0) d4
      hhs hhdr (by simp [hwo]) (by simp [hwo, h4, ha4])
  rw [hwo, h4, ha4] at hB1 hw1
  rw [h4, ha4] at ht1len
  have ht1nil : t1 = [] := List.length_eq_zero.mp (by omega)
  subst ht1nil
  simp only [Nat.zero_add, List.drop_succ_cons, List.drop_nil, List.drop_zero,
    List.nil_append, List.append_nil] at hB1
  set p1 := Pickle.create_empty.write_bytes d4 with hp1def
  have hB1len : p1.toBytes.length = 8 := by
    rw [hB1]
    simp [leBytes_length, h4]
  obtain ⟨t2, Z2, hB2, ht2len, hh2, hw2, hs2⟩ :=
    write_bytes_spec p1 p1.toBytes Z1 d hs1 hh1 (by rw [hB1len, hw1])
      (by rw [hw1]; omega)
  rw [hw1] at hB2 hw2
  have hdrop1 : p1.toBytes.drop 4 = d4 := by
    rw [hB1, List.drop_left' (leBytes_length _ _)]
  rw [hdrop1] at hB2
  rw [List.append_assoc, List.append_assoc] at hB2
  set B := ((Pickle.create_empty.write_bytes d4).write_bytes d).toBytes
    with hBdef
  have hBlen : B.length = 4 + (4 + align_int d.length 4) := by
    rw [hB2]
    simp [leBytes_length, List.length_append, h4]
    omega
  have hB4 : B.take 4 = leBytes 4 (4 + align_int d.length 4) := by
    rw [hB2]
    exact List.take_left' (leBytes_length _ _)
  have hPlt : 4 + align_int d.length 4 < 2 ^ 32 := by omega
  refine ⟨B,
    { payload := B, payloadOffset := 4,
      readIndex := (if 4 + align_int d.length 4 < 4 + align_int d.length 4 then
        4 + align_int d.length 4 else 4 + align_int d.length 4),
      endIndex := 4 + align_int d.length 4 }, rfl, ?_, ?_, ?_⟩
  · rw [parseIter, create_from_buffer_spec B _ hB4 hBlen hPlt]
    simp only [Option.map_some']
    rw [create_iterator_spec B _ hB4 hPlt]
  · rw [read_bytes_step B _ 0 4 (by omega)]
    have hbytes : (B.drop (4 + 0)).take 4 = d4 := by
      rw [Nat.add_zero, hB2, List.drop_left' (leBytes_length _ _),
        List.take_left' h4]
    rw [hbytes]
    have hri : (if 4 + align_int d.length 4 < 0 + align_int 4 4 then
        4 + align_int d.length 4 else 0 + align_int 4 4) = 4 := by
      rw [ha4, if_neg (by omega)]
    rw [hri]
  · rw [read_bytes_step B _ 4 d.length (by omega)]
    have hbytes : (B.drop (4 + 4)).take d.length = d := by
      rw [hB2, ← List.append_assoc]
      have hlen8 : (leBytes 4 (4 + align_int d.length 4) ++ d4).length = 8 := by
        simp [leBytes_length, h4]
      rw [List.drop_left' hlen8, List.take_left' rfl]
    rw [hbytes]

/-- C4: for every primitive codec type (bool, int32, uint32, int64,
uint64, float32, float64, UTF-8 string, raw bytes — the two float types
at the level of their IEEE-754 bit patterns, which is what
`struct.pack("<f"/"<d", ...)` exchanges with the buffer) and every
in-range value, reading the type back from a `Pickle` built from the
buffer produced by writing the value returns the value; and every written
record occupies a multiple of 4 bytes in the buffer regardless of payload
length. -/
theorem C4_codec_roundtrip :
    (∀ b : Bool,
      ((parseIter (Pickle.create_empty.write_bool b).toBytes).bind
        PickleIterator.read_bool).map Prod.fst = some b)
    ∧ (∀ v : Int, -(2 ^ 31) ≤ v → v < 2 ^ 31 →
      ((parseIter (Pickle.create_empty.write_int v).toBytes).bind
        PickleIterator.read_int).map Prod.fst = some v)
    ∧ (∀ n : Nat, n < 2 ^ 32 →
      ((parseIter (Pickle.create_empty.write_uint32 n).toBytes).bind
        PickleIterator.read_uint32).map Prod.fst = some n)
    ∧ (∀ v : Int, -(2 ^ 63) ≤ v → v < 2 ^ 63 →
      ((parseIter (Pickle.create_empty.write_int64 v).toBytes).bind
        PickleIterator.read_int64).map Prod.fst = some v)
    ∧ (∀ n : Nat, n < 2 ^ 64 →
      ((parseIter (Pickle.create_empty.write_uint64 n).toBytes).bind
        PickleIterator.read_uint64).map Prod.fst = some n)
    ∧ (∀ bits : Nat, bits < 2 ^ 32 →
      ((parseIter (Pickle.create_empty.write_float bits).toBytes).bind
        PickleIterator.read_float).map Prod.fst = some bits)
    ∧ (∀ bits : Nat, bits < 2 ^ 64 →
      ((parseIter (Pickle.create_empty.write_double bits).toBytes).bind
        PickleIterator.read_double).map Prod.fst = some bits)
    ∧ (∀ s : String, (utf8Encode s).length < 2 ^ 31 →
      ((parseIter (Pickle.create_empty.write_string s).toBytes).bind
        PickleIterator.read_string).map Prod.fst = some s)
    ∧ (∀ d : List Nat, d.length + 8 < 2 ^ 32 →
      ((parseIter (Pickle.create_empty.write_bytes d).toBytes).bind
        (fun it => it.read_bytes d.length)).map Prod.fst = some d
      ∧ (Pickle.create_empty.write_bytes d).toBytes.length =
          4 + align_int d.length 4)
    ∧ (∀ (p : Pickle) (d : List Nat),
      (p.write_bytes d).writeOffset = p.writeOffset + align_int d.length 4
      ∧ 4 ∣ align_int d.length 4) := by
  have hbytes : ∀ d : List Nat, d.length + 8 < 2 ^ 32 →
      ((parseIter (Pickle.create_empty.write_bytes d).toBytes).bind
        (fun it => it.read_bytes d.length)).map Prod.fst = some d
      ∧ (Pickle.create_empty.write_bytes d).toBytes.length =
          4 + align_int d.length 4 := by
    intro d hd
    obtain ⟨B, it1, hBt, hBlen, hp, hr⟩ := single_record_read d hd
    constructor
    · rw [hBt, hp, Option.some_bind, hr, Option.map_some']
    · rw [hBt, hBlen]
  refine ⟨?_, ?_, ?_, ?_, ?_, ?_, ?_, ?_, hbytes, ?_⟩
  · -- bool
    intro b
    have hlen := leBytesSigned_length 4 (if b then (1 : Int) else 0)
    obtain ⟨B, it1, hBt, hBlen, hp, hr⟩ :=
      single_record_read (leBytesSigned 4 (if b then (1 : Int) else 0))
        (by rw [hlen]; norm_num)
    rw [hlen] at hr
    rw [Pickle.write_bool, Pickle.write_int, hBt, hp, Option.some_bind,
      PickleIterator.read_bool, PickleIterator.read_int, hlen, hr,
      Option.map_some', Option.map_some', Option.map_some']
    rw [unpackLESigned_leBytesSigned_4 _ (by cases b <;> norm_num)
      (by cases b <;> norm_num)]
    cases b <;> rfl
  · -- int32
    intro v h1 h2
    have hlen := leBytesSigned_length 4 v
    obtain ⟨B, it1, hBt, hBlen, hp, hr⟩ :=
      single_record_read (leBytesSigned 4 v) (by rw [hlen]; norm_num)
    rw [hlen] at hr
    rw [Pickle.write_int, hBt, hp, Option.some_bind,
      PickleIterator.read_int, hlen, hr, Option.map_some', Option.map_some']
    rw [unpackLESigned_leBytesSigned_4 v h1 h2]
  · -- uint32
    intro n hn
    have hlen := leBytes_length 4 n
    obtain ⟨B, it1, hBt, hBlen, hp, hr⟩ :=
      single_record_read (leBytes 4 n) (by rw [hlen]; norm_num)
    rw [hlen] at hr
    rw [Pickle.write_uint32, hBt, hp, Option.some_bind,
      PickleIterator.read_uint32, hlen, hr, Option.map_some',
      Option.map_some']
    rw [unpackLE_leBytes 4 n (by norm_num at hn ⊢; omega)]
  · -- int64
    intro v h1 h2
    have hlen := leBytesSigned_length 8 v
    obtain ⟨B, it1, hBt, hBlen, hp, hr⟩ :=
      single_record_read (leBytesSigned 8 v) (by rw [hlen]; norm_num)
    rw [hlen] at hr
    rw [Pickle.write_int64, hBt, hp, Option.some_bind,
      PickleIterator.read_int64, hlen, hr, Option.map_some',
      Option.map_some']
    rw [unpackLESigned_leBytesSigned_8 v h1 h2]
  · -- uint64
    intro n hn
    have hlen := leBytes_length 8 n
    obtain ⟨B, it1, hBt, hBlen, hp, hr⟩ :=
      single_record_read (leBytes 8 n) (by rw [hlen]; norm_num)
    rw [hlen] at hr
    rw [Pickle.write_uint64, hBt, hp, Option.some_bind,
      PickleIterator.read_uint64, hlen, hr, Option.map_some',
      Option.map_some']
    rw [unpackLE_leBytes 8 n (by norm_num at hn ⊢; omega)]
  · -- float32 (bit pattern)
    intro bits hb
    have hlen := leBytes_length 4 bits
    obtain ⟨B, it1, hBt, hBlen, hp, hr⟩ :=
      single_record_read (leBytes 4 bits) (by rw [hlen]; norm_num)
    rw [hlen] at hr
    rw [Pickle.write_float, hBt, hp, Option.some_bind,
      PickleIterator.read_float, hlen, hr, Option.map_some',
      Option.map_some']
    rw [unpackLE_leBytes 4 bits (by norm_num at hb ⊢; omega)]
  · -- float64 (bit pattern)
    intro bits hb
    have hlen := leBytes_length 8 bits
    obtain ⟨B, it1, hBt, hBlen, hp, hr⟩ :=
      single_record_read (leBytes 8 bits) (by rw [hlen]; norm_num)
    rw [hlen] at hr
    rw [Pickle.write_double, hBt, hp, Option.some_bind,
      PickleIterator.read_double, hlen, hr, Option.map_some',
      Option.map_some']
    rw [unpackLE_leBytes 8 bits (by norm_num at hb ⊢; omega)]
  · -- string
    intro s hs
    have hlen := leBytesSigned_length 4 (((utf8Encode s).length : Nat) : Int)
    obtain ⟨B, it2, hBt, hp, hr1, hr2⟩ :=
      two_record_read (leBytesSigned 4 (((utf8Encode s).length : Nat) : Int))
        (utf8Encode s) hlen (by omega)
    have hunp : unpackLESigned 4
        (leBytesSigned 4 (((utf8Encode s).length : Nat) : Int)) =
        (((utf8Encode s).length : Nat) : Int) :=
      unpackLESigned_leBytesSigned_4 _ (by omega) (by omega)
    rw [Pickle.write_string, Pickle.write_int, hBt, hp, Option.some_bind,
      PickleIterator.read_string, PickleIterator.read_int, hr1,
      Option.map_some', hunp]
    dsimp only
    rw [if_neg (by omega), Int.toNat_natCast, hr2]
    dsimp only
    rw [utf8Decode_encode, Option.map_some']
  · -- alignment of every record
    intro p d
    exact ⟨rfl, align_int4_dvd d.length⟩

/-- Concrete instances of `C4_codec_roundtrip`, with every hypothesis
discharged at boundary-style values (a negative int32, the maximal
uint32/uint64, the minimal int64, non-trivial float bit patterns, a
string mixing 1-, 2-, 3- and 4-byte UTF-8 sequences). -/
theorem C4_codec_roundtrip_witness :
    (((parseIter (Pickle.create_empty.write_bool true).toBytes).bind
        PickleIterator.read_bool).map Prod.fst = some true)
    ∧ (((parseIter (Pickle.create_empty.write_int (-5)).toBytes).bind
        PickleIterator.read_int).map Prod.fst = some (-5))
    ∧ (((parseIter (Pickle.create_empty.write_uint32 4294967295).toBytes).bind
        PickleIterator.read_uint32).map Prod.fst = some 4294967295)
    ∧ (((parseIter (Pickle.create_empty.write_int64 (-9223372036854775808)).toBytes).bind
        PickleIterator.read_int64).map Prod.fst = some (-9223372036854775808))
    ∧ (((parseIter (Pickle.create_empty.write_uint64 18446744073709551615).toBytes).bind
        PickleIterator.read_uint64).map Prod.fst = some 18446744073709551615)
    ∧ (((parseIter (Pickle.create_empty.write_float 0x3F800000).toBytes).bind
        PickleIterator.read_float).map Prod.fst = some 0x3F800000)
    ∧ (((parseIter (Pickle.create_empty.write_double 0x3FF0000000000000).toBytes).bind
        PickleIterator.read_double).map Prod.fst = some 0x3FF0000000000000)
    ∧ (((parseIter (Pickle.create_empty.write_string "aé✓𝄞").toBytes).bind
        PickleIterator.read_string).map Prod.fst = some "aé✓𝄞")
    ∧ (((parseIter (Pickle.create_empty.write_bytes [1, 2, 3]).toBytes).bind
        (fun it => it.read_bytes 3)).map Prod.fst = some [1, 2, 3]
      ∧ (Pickle.create_empty.write_bytes [1, 2, 3]).toBytes.length =
          4 + align_int 3 4)
    ∧ ((Pickle.create_empty.write_bytes [1, 2, 3]).writeOffset =
          Pickle.create_empty.writeOffset + align_int 3 4
      ∧ 4 ∣ align_int 3 4) :=
  ⟨C4_codec_roundtrip.1 true,
   C4_codec_roundtrip.2.1 (-5) (by norm_num) (by norm_num),
   C4_codec_roundtrip.2.2.1 4294967295 (by norm_num),
   C4_codec_roundtrip.2.2.2.1 (-9223372036854775808) (by norm_num) (by norm_num),
   C4_codec_roundtrip.2.2.2.2.1 18446744073709551615 (by norm_num),
   C4_codec_roundtrip.2.2.2.2.2.1 0x3F800000 (by norm_num),
   C4_codec_roundtrip.2.2.2.2.2.2.1 0x3FF0000000000000 (by norm_num),
   C4_codec_roundtrip.2.2.2.2.2.2.2.1 "aé✓𝄞" (by decide),
   C4_codec_roundtrip.2.2.2.2.2.2.2.2.1 [1, 2, 3] (by norm_num),
   C4_codec_roundtrip.2.2.2.2.2.2.2.2.2 Pickle.create_empty [1, 2, 3]⟩

/-- C8: after a successful `seek(p1)`, a later `seek(p2)` with `p2 < p1`
fails with the rewind error, and the returned state is exactly the state
before the failing call — the cursor is unchanged. -/
theorem C8_forward_only_seek (st st1 : Fs) (p1 p2 : Nat) (h12 : p2 < p1)
    (h1 : st.seek p1 = (none, st1)) :
    st1.seek p2 = (some FsErr.rewind, st1) := by
  rw [Fs.seek] at h1
  split at h1
  · exact absurd (congrArg Prod.fst h1) (by simp)
  · have hst1 : st1 =
        { st with position := p1 + st.headerSize, fpPos := p1 + st.headerSize } := by
      have h2 := congrArg Prod.snd h1
      exact h2.symm
    subst hst1
    rw [Fs.seek, if_pos (by simp only; omega)]

/-- Instance of `C8_forward_only_seek`: on an archive with header size 8,
`seek(5)` then `seek(3)` raises the rewind error and leaves the cursor at
13 = 8 + 5. -/
theorem C8_forward_only_seek_witness :
    Fs.seek (Fs.mk 8 13 [] 13 0) 3 = (some FsErr.rewind, Fs.mk 8 13 [] 13 0) :=
  C8_forward_only_seek (Fs.mk 8 8 [] 0 0) (Fs.mk 8 13 [] 13 0) 5 3 (by omega)
    (by decide)

/-- C7 counterexample: the 4-byte buffer `[8, 0, 0, 0]` declares payload
size 8, so the derived header size is 4 − 8 = −4 — negative — yet the
constructor keeps it (−4 is a multiple of 4, so the alignment check
passes under Python's non-negative `%`) together with the whole buffer,
instead of falling back to an empty buffer. -/
theorem C7_negative_header_counterexample :
    (Pickle.create_from_buffer [8, 0, 0, 0]).map Pickle.headerSize = some (-4)
    ∧ (Pickle.create_from_buffer [8, 0, 0, 0]).map Pickle.header =
        some [8, 0, 0, 0] := by
  decide

/-- C7 (amended): constructing a `Pickle` from a buffer of at least 4
bytes reinterprets the first 4 bytes as the payload size and derives the
header size as `totalLength − payloadSize`; it falls back to an empty
buffer (header size 0, empty header) exactly when that derived size is
zero or not a multiple of 4.  The derived size can never exceed the buffer
length (the payload size is unsigned), and a negative derived size that is
a multiple of 4 is retained together with the buffer. -/
theorem C7_amended (buf : List Nat) (st : Pickle) (h4 : 4 ≤ buf.length)
    (hps : Pickle.create_from_buffer buf = some st) :
    st.capacityAfterHeader = CAPACITY_READ_ONLY
    ∧ st.writeOffset = 0
    ∧ (((buf.length : Int) - unpackLE (buf.take 4) = 0 ∨
          ((buf.length : Int) - unpackLE (buf.take 4)) % 4 ≠ 0) →
        st.headerSize = 0 ∧ st.header = [])
    ∧ (¬((buf.length : Int) - unpackLE (buf.take 4) = 0 ∨
          ((buf.length : Int) - unpackLE (buf.take 4)) % 4 ≠ 0) →
        st.headerSize = (buf.length : Int) - unpackLE (buf.take 4)
        ∧ st.header = buf) := by
  rw [Pickle.create_from_buffer, if_neg (by omega)] at hps
  simp only [Option.some.injEq] at hps
  subst hps
  set hs0 : Int := (buf.length : Int) - unpackLE (buf.take 4) with hhs0
  have hnotgt : ¬(hs0 > (buf.length : Int)) := by
    rw [hhs0]
    have : (0 : Int) ≤ unpackLE (buf.take 4) := Int.natCast_nonneg _
    omega
  rw [if_neg hnotgt]
  have halign : align_int_signed hs0 4 = hs0 ↔ hs0 % 4 = 0 := by
    unfold align_int_signed
    omega
  refine ⟨rfl, rfl, ?_, ?_⟩
  · intro hcond
    rcases hcond with hz | hmod
    · by_cases hne : hs0 ≠ align_int_signed hs0 4
      · rw [if_pos hne, if_pos rfl]
        exact ⟨rfl, rfl⟩
      · rw [if_neg hne, if_pos hz]
        exact ⟨hz, rfl⟩
    · have hne : hs0 ≠ align_int_signed hs0 4 := by
        intro he
        exact hmod (halign.mp he.symm)
      rw [if_pos hne, if_pos rfl]
      exact ⟨rfl, rfl⟩
  · intro hcond
    push_neg at hcond
    obtain ⟨hz, hmod⟩ := hcond
    have hne : ¬(hs0 ≠ align_int_signed hs0 4) := by
      simp only [ne_eq, Decidable.not_not]
      exact (halign.mpr hmod).symm
    rw [if_neg hne, if_neg hz]
    exact ⟨rfl, rfl⟩

/-- Instance of `C7_amended` at the counterexample buffer `[8, 0, 0, 0]`:
the derived header size −4 is a non-zero multiple of 4, so the state keeps
`headerSize = −4` and the full buffer. -/
theorem C7_amended_witness :
    (Pickle.mk [8, 0, 0, 0] (-4) CAPACITY_READ_ONLY 0).capacityAfterHeader =
        CAPACITY_READ_ONLY
    ∧ (Pickle.mk [8, 0, 0, 0] (-4) CAPACITY_READ_ONLY 0).writeOffset = 0
    ∧ ((((4 : Nat) : Int) - unpackLE (([8, 0, 0, 0] : List Nat).take 4) = 0 ∨
          (((4 : Nat) : Int) - unpackLE (([8, 0, 0, 0] : List Nat).take 4)) % 4 ≠ 0) →
        (Pickle.mk [8, 0, 0, 0] (-4) CAPACITY_READ_ONLY 0).headerSize = 0
        ∧ (Pickle.mk [8, 0, 0, 0] (-4) CAPACITY_READ_ONLY 0).header = [])
    ∧ (¬(((4 : Nat) : Int) - unpackLE (([8, 0, 0, 0] : List Nat).take 4) = 0 ∨
          (((4 : Nat) : Int) - unpackLE (([8, 0, 0, 0] : List Nat).take 4)) % 4 ≠ 0) →
        (Pickle.mk [8, 0, 0, 0] (-4) CAPACITY_READ_ONLY 0).headerSize =
            ((4 : Nat) : Int) - unpackLE (([8, 0, 0, 0] : List Nat).take 4)
        ∧ (Pickle.mk [8, 0, 0, 0] (-4) CAPACITY_READ_ONLY 0).header = [8, 0, 0, 0]) :=
  C7_amended [8, 0, 0, 0] (Pickle.mk [8, 0, 0, 0] (-4) CAPACITY_READ_ONLY 0)
    (by decide) (by decide)

theorem pyLowerChar_toNat (c : Char) :
    (pyLowerChar c).toNat =
      if 65 ≤ c.toNat ∧ c.toNat ≤ 90 then c.toNat + 32 else c.toNat := by
  unfold pyLowerChar
  split
  · rename_i h
    exact char_toNat_ofNat (Or.inl (by omega))
  · rfl

theorem isHexChar_pyLowerChar (c : Char) :
    isHexChar (pyLowerChar c) = isHexChar c := by
  have h := pyLowerChar_toNat c
  by_cases hcase : 65 ≤ c.toNat ∧ c.toNat ≤ 90
  · rw [if_pos hcase] at h
    unfold isHexChar
    rw [h]
    exact decide_eq_decide.mpr (by omega)
  · rw [if_neg hcase] at h
    unfold isHexChar
    rw [h]

theorem pyLower_length (s : String) : (pyLower s).length = s.length := by
  cases s with
  | mk data => simp [pyLower, String.length]

/-- C10: `Sha256Hash` validation (pydantic `StringConstraints` with
`to_lower=True` and the 64-hex-digit pattern) accepts exactly the strings
of 64 hexadecimal digits — in uppercase, lowercase or mixed case — and the
value stored in the parsed model is the lower-cased form: every character
of a stored digest is a decimal digit or a lowercase `a`–`f`, so all
digest comparisons during extraction see the lowercase form regardless of
the case used in the archive's index JSON. -/
theorem C10_hash_case_normalization :
    (∀ s : String, (sha256HashValidate s).isSome ↔
      (s.length = 64 ∧ ∀ c ∈ s.data, isHexChar c = true))
    ∧ (∀ s r : String, sha256HashValidate s = some r →
      r = pyLower s ∧ r.length = 64 ∧
      ∀ c ∈ r.data, (48 ≤ c.toNat ∧ c.toNat ≤ 57) ∨
        (97 ≤ c.toNat ∧ c.toNat ≤ 102)) := by
  have hall : ∀ s : String,
      ((pyLower s).data.all isHexChar = s.data.all isHexChar) := by
    intro s
    cases s with
    | mk data =>
      show (data.map pyLowerChar).all isHexChar = data.all isHexChar
      induction data with
      | nil => rfl
      | cons a l ih =>
        simp only [List.map_cons, List.all_cons, isHexChar_pyLowerChar, ih]
  constructor
  · intro s
    rw [sha256HashValidate]
    split
    · rename_i hcond
      obtain ⟨h64, hhex⟩ := hcond
      constructor
      · intro _
        refine ⟨by rw [← pyLower_length s]; exact h64, ?_⟩
        have h2 := (hall s) ▸ hhex
        simpa [List.all_eq_true] using h2
      · intro _
        rfl
    · rename_i hcond
      constructor
      · intro h
        exact absurd h (by simp)
      · intro hcontra
        obtain ⟨h64, hhex⟩ := hcontra
        exact absurd ⟨by rw [pyLower_length s]; exact h64,
          by rw [hall s]; simpa [List.all_eq_true] using hhex⟩ hcond
  · intro s r hr
    rw [sha256HashValidate] at hr
    split at hr
    · rename_i hcond
      obtain ⟨h64, hhex⟩ := hcond
      simp only [Option.some.injEq] at hr
      subst hr
      refine ⟨rfl, h64, ?_⟩
      intro c hc
      have hhexc : isHexChar c = true := by
        rw [List.all_eq_true] at hhex
        exact hhex c hc
      have hnotup : ¬(65 ≤ c.toNat ∧ c.toNat ≤ 90) := by
        cases s with
        | mk data =>
          obtain ⟨c', _, hc'⟩ := List.mem_map.mp hc
          subst hc'
          have h := pyLowerChar_toNat c'
          by_cases hcase : 65 ≤ c'.toNat ∧ c'.toNat ≤ 90
          · rw [if_pos hcase] at h
            omega
          · rw [if_neg hcase] at h
            omega
      unfold isHexChar at hhexc
      rw [decide_eq_true_eq] at hhexc
      omega
    · exact absurd hr (by simp)

/-- Instance of `C10_hash_case_normalization`: the all-uppercase digest of
64 `A`s is accepted and stored as 64 `a`s. -/
theorem C10_hash_case_normalization_witness :
    ((sha256HashValidate (String.mk (List.replicate 64 'A'))).isSome ↔
      ((String.mk (List.replicate 64 'A')).length = 64 ∧
        ∀ c ∈ (String.mk (List.replicate 64 'A')).data, isHexChar c = true))
    ∧ (String.mk (List.replicate 64 'a') =
        pyLower (String.mk (List.replicate 64 'A'))
      ∧ (String.mk (List.replicate 64 'a')).length = 64
      ∧ ∀ c ∈ (String.mk (List.replicate 64 'a')).data,
          (48 ≤ c.toNat ∧ c.toNat ≤ 57) ∨ (97 ≤ c.toNat ∧ c.toNat ≤ 102)) :=
  ⟨C10_hash_case_normalization.1 (String.mk (List.replicate 64 'A')),
   C10_hash_case_normalization.2 (String.mk (List.replicate 64 'A'))
     (String.mk (List.replicate 64 'a')) (by decide)⟩

/-- C5: packaging a zero-byte file (an entry exactly as `handle_file`
builds it) appends the empty-content digest as the single block entry and
leaves `integrity.hash` at the `EMPTY_FILE_HASH` it was initialized with,
without touching the source stream, the temporary payload or the running
offset; and extracting any zero-size `File` performs no stream reads
(the read-call counter of the resulting state equals the caller's),
succeeding exactly when `integrity.hash` and the single block entry both
equal the empty-content digest, and failing with the integrity error
otherwise. -/
theorem C5_empty_file (sha : List Nat → String) (path : RelPath) (ex : Bool)
    (bs : Nat) (tmp src : List Nat) (off : Nat)
    (f : AFile) (st : Fs) (n : Nat)
    (hsz : f.size = 0) (hoff : f.offset = PyScalar.ofInt n)
    (hseek : st.position ≤ n + st.headerSize) :
    (process_file sha tmp off (handleFileEntry path 0 ex bs) src =
      PFRes.ok { handleFileEntry path 0 ex bs with
          integrity := { (handleFileEntry path 0 ex bs).integrity with
            blocks := [EMPTY_FILE_HASH] } } tmp off src
      ∧ (handleFileEntry path 0 ex bs).integrity.hash = EMPTY_FILE_HASH)
    ∧ (let st1 : Fs :=
        { st with position := n + st.headerSize, fpPos := n + st.headerSize }
      st1.readCalls = st.readCalls
      ∧ (f.extract sha st = ExtractRes.ok [] st1 ∨
         f.extract sha st = ExtractRes.err ExtractErr.invalidEmptyHash st1)
      ∧ (f.extract sha st = ExtractRes.ok [] st1 ↔
          (f.integrity.hash = EMPTY_FILE_HASH ∧
            f.integrity.blocks = [EMPTY_FILE_HASH]))) := by
  have hseekeq : st.seek f.offset.asNat =
      (none, { st with position := n + st.headerSize
                       fpPos := n + st.headerSize }) := by
    rw [hoff]
    show st.seek n = _
    rw [Fs.seek, if_neg (by omega)]
  have hext : f.extract sha st =
      (if f.integrity.hash ≠ EMPTY_FILE_HASH ∨ f.integrity.blocks.length ≠ 1 ∨
          f.integrity.blocks.headD "" ≠ EMPTY_FILE_HASH then
        ExtractRes.err ExtractErr.invalidEmptyHash
          { st with position := n + st.headerSize, fpPos := n + st.headerSize }
      else ExtractRes.ok []
          { st with position := n + st.headerSize, fpPos := n + st.headerSize }) := by
    rw [AFile.extract.eq_def, hseekeq]
    dsimp only
    rw [if_pos hsz]
  refine ⟨⟨rfl, rfl⟩, ?_, ?_, ?_⟩
  · rfl
  · rw [hext]
    split
    · exact Or.inr rfl
    · exact Or.inl rfl
  · rw [hext]
    constructor
    · intro hok
      split at hok
      · exact absurd hok (by simp)
      · rename_i hcond
        push_neg at hcond
        obtain ⟨hh, hl, hd⟩ := hcond
        refine ⟨hh, ?_⟩
        rcases hbl : f.integrity.blocks with _ | ⟨a, _ | ⟨b, l2⟩⟩
        · rw [hbl] at hl
          simp at hl
        · rw [hbl] at hd
          simp only [List.headD_cons] at hd
          rw [hd]
        · rw [hbl] at hl
          simp at hl
    · intro ⟨hh, hb⟩
      rw [if_neg (by rw [hh, hb]; simp)]

/-- Instance of `C5_empty_file` at a concrete zero-byte entry whose
integrity record is the well-formed empty-file sentinel. -/
theorem C5_empty_file_witness :
    (process_file (fun _ => "") [] 0 (handleFileEntry ["a"] 0 false 1024) [] =
      PFRes.ok { handleFileEntry ["a"] 0 false 1024 with
          integrity := { (handleFileEntry ["a"] 0 false 1024).integrity with
            blocks := [EMPTY_FILE_HASH] } } [] 0 []
      ∧ (handleFileEntry ["a"] 0 false 1024).integrity.hash = EMPTY_FILE_HASH)
    ∧ ((Fs.mk 8 8 [] 8 0).readCalls = (Fs.mk 8 8 [] 0 0).readCalls
      ∧ (AFile.extract (fun _ => "")
            (AFile.mk ["a"] 0 (PyScalar.ofInt 0) false
              (Integrity.mk "SHA256" EMPTY_FILE_HASH 1024 [EMPTY_FILE_HASH]))
            (Fs.mk 8 8 [] 0 0) = ExtractRes.ok [] (Fs.mk 8 8 [] 8 0)
        ∨ AFile.extract (fun _ => "")
            (AFile.mk ["a"] 0 (PyScalar.ofInt 0) false
              (Integrity.mk "SHA256" EMPTY_FILE_HASH 1024 [EMPTY_FILE_HASH]))
            (Fs.mk 8 8 [] 0 0) =
              ExtractRes.err ExtractErr.invalidEmptyHash (Fs.mk 8 8 [] 8 0))
      ∧ (AFile.extract (fun _ => "")
            (AFile.mk ["a"] 0 (PyScalar.ofInt 0) false
              (Integrity.mk "SHA256" EMPTY_FILE_HASH 1024 [EMPTY_FILE_HASH]))
            (Fs.mk 8 8 [] 0 0) = ExtractRes.ok [] (Fs.mk 8 8 [] 8 0) ↔
          ((AFile.mk ["a"] 0 (PyScalar.ofInt 0) false
              (Integrity.mk "SHA256" EMPTY_FILE_HASH 1024
                [EMPTY_FILE_HASH])).integrity.hash = EMPTY_FILE_HASH
            ∧ (AFile.mk ["a"] 0 (PyScalar.ofInt 0) false
              (Integrity.mk "SHA256" EMPTY_FILE_HASH 1024
                [EMPTY_FILE_HASH])).integrity.blocks = [EMPTY_FILE_HASH]))) :=
  C5_empty_file (fun _ => "") ["a"] false 1024 [] [] 0
    (AFile.mk ["a"] 0 (PyScalar.ofInt 0) false
      (Integrity.mk "SHA256" EMPTY_FILE_HASH 1024 [EMPTY_FILE_HASH]))
    (Fs.mk 8 8 [] 0 0) 0 rfl rfl (by decide)

theorem readLoop_empty_stream (fuel : Nat) (st : Fs) (hst : st.fileData = [])
    (size : Nat) (hsz : 0 < size) :
    Fs.readLoop fuel st size = ReadRes.outOfFuel := by
  induction fuel generalizing st with
  | zero => rfl
  | succ fuel ih =>
    rw [Fs.readLoop, if_pos hsz]
    simp only [Fs.fpRead, hst, List.drop_nil, List.take_nil, List.length_nil,
      Nat.add_zero, pyBytesEqEmptyStr, Bool.false_eq_true, if_false,
      Nat.sub_zero]
    rw [ih _ (by exact hst ▸ rfl) ]

/-- C6 (observed failing behavior): the guard `data == &#x27;&#x27;` in
`Filesystem.read` compares a `bytes` value against a `str` and is
therefore always `False` in Python, so when the underlying stream is
exhausted and one more byte is requested the loop never raises `IOError`:
for every fuel bound the loop is still running (`outOfFuel`), and the
result is never the I/O error the claim requires. -/
theorem C6_read_exhausted_never_io_error (fuel : Nat) (st' : Fs) :
    Fs.read fuel (Fs.mk 8 8 [] 0 0) 1 = ReadRes.outOfFuel
    ∧ Fs.read fuel (Fs.mk 8 8 [] 0 0) 1 ≠ ReadRes.ioError st' := by
  have h : Fs.read fuel (Fs.mk 8 8 [] 0 0) 1 = ReadRes.outOfFuel := by
    rw [Fs.read, if_neg (by omega)]
    exact readLoop_empty_stream fuel _ rfl 1 (by omega)
  exact ⟨h, by rw [h]; intro hcon; cases hcon⟩

/-- C2 (observed failing behavior): an index entry literally named `"."`
is NOT rejected by `Filesystem.__iter__`: `pathlib` drops `"."` components
when joining, so `fullpath.name` can never equal `os.curdir` and the
assertion meant to reject such an entry never fires — the entry is yielded
with its fullpath collapsed onto the parent directory.  The other three
conditions of the claim do hold: a name containing a path separator, a
name `".."`, and a folder literally named `".."` nested in the structure
all abort the traversal before the offending entry is yielded. -/
theorem C2_dot_entry_yielded :
    iterFs 8 [(".", AEntry.link "t")] = ([YNode.symlink [] "t"], none)
    ∧ iterFs 8 [("a/b", AEntry.link "t")] = ([], some IterErr.pathSep)
    ∧ iterFs 8 [("..", AEntry.link "t")] = ([], some IterErr.pardir)
    ∧ iterFs 8 [("d", AEntry.folder [("..", AEntry.link "t")])] =
        ([YNode.folder ["d"]], some IterErr.pardir) := by
  refine ⟨by decide, by decide, by decide, by decide⟩

/-- C3 (observed failing behavior): packaging a file of size
`2*blockSize + 1 = 9` with `blockSize = 4` does not record 3 block
digests.  `process_file` computes
`block_size = min(blockSize, size % blockSize)` — the file size modulo the
block size, a constant equal to 1 here — instead of the remaining byte
count, so after one 1-byte read the next computed read size is
`1 - (1 % 4) = 0`, `fp.read(0)` returns the empty byte string, and the
function aborts with the premature-end-of-file error. -/
theorem C3_block_hashing_premature_eof (sha : List Nat → String)
    (tmp : List Nat) :
    process_file sha tmp 0 (handleFileEntry ["f"] 9 false 4)
      [1, 2, 3, 4, 5, 6, 7, 8, 9] = PFRes.prematureEOF := rfl

/-- C1 (observed failing behavior): packaging any tree containing a
regular file whose size is at least the configured block size fails
outright, so the pack-then-extract round trip cannot hold.  With
`block_size = 1024` (the smallest `walk_dir` accepts) and a 1024-byte
file, `process_file` computes `block_size = min(1024, 1024 % 1024) = 0`,
reads 0 bytes, and raises the premature-end-of-file error; `create_index`
(and with it `create_package_from_files`) aborts and no archive is
produced. -/
theorem C1_roundtrip_packaging_fails (sha : List Nat → String) :
    create_index sha
      [PEntry.pfile (handleFileEntry ["big.bin"] 1024 false 1024)
        (List.replicate 1024 7)] [] 0 [] = CIRes.prematureEOF := rfl

/-- C9 counterexample: the record `create_index` inserts for a zero-byte
file `a.txt` keeps `offset` as the integer 0 (not a decimal string — for
empty files `process_file` returns before assigning `str(offset)`), and
the serialized integrity record contains the `blocks` field, which the
claim says is excluded. -/
theorem C9_blocks_included_counterexample :
    create_index (fun _ => "")
      [PEntry.pfile (handleFileEntry ["a.txt"] 0 false 1024) []] [] 0 [] =
      CIRes.ok [("a.txt", JVal.obj
        [("size", JVal.num 0), ("offset", JVal.num 0),
         ("executable", JVal.bool false),
         ("integrity", JVal.obj
           [("algorithm", JVal.str "SHA256"),
            ("hash", JVal.str EMPTY_FILE_HASH),
            ("blockSize", JVal.num 1024),
            ("blocks", JVal.arr [JVal.str EMPTY_FILE_HASH])])])] 0 [] := rfl

theorem processFileLoop_ok (sha : List Nat → String) (entry : AFile)
    (offset : Nat) :
    ∀ (fuel sofar : Nat) (buf g b : List Nat) (blocks : List String)
      (tmp src : List Nat) (f' : AFile) (tmp' : List Nat) (off' : Nat)
      (rest : List Nat),
    processFileLoop sha entry offset fuel sofar buf g b blocks tmp src =
      PFRes.ok f' tmp' off' rest →
    f'.offset = PyScalar.ofStr (toString offset) ∧ f'.size = entry.size
    ∧ f'.executable = entry.executable ∧ f'.fullpath = entry.fullpath
    ∧ f'.integrity.blockSize = entry.integrity.blockSize
    ∧ off' = offset + entry.size := by
  intro fuel
  induction fuel with
  | zero =>
    intro sofar buf g b blocks tmp src f' tmp' off' rest h
    exact absurd h (by simp [processFileLoop])
  | succ fuel ih =>
    intro sofar buf g b blocks tmp src f' tmp' off' rest h
    rw [processFileLoop] at h
    split at h
    · dsimp only at h
      split at h
      · exact absurd h (by simp)
      · split at h
        · exact ih _ _ _ _ _ _ _ _ _ _ _ h
        · exact ih _ _ _ _ _ _ _ _ _ _ _ h
    · simp only [PFRes.ok.injEq] at h
      obtain ⟨hf, _, hoff, _⟩ := h
      subst hf
      exact ⟨rfl, rfl, rfl, rfl, rfl, hoff.symm⟩

/-- C9 (amended): for every File entry with positive size that
`create_index` successfully packages, the inserted record contains the
size, the offset serialized as a decimal string, the executable flag, and
the full integrity record with the `blocks` field included in the
serialized form (zero-size entries instead keep their original integer
offset — see the counterexample). -/
theorem C9_amended (sha : List Nat → String) (f : AFile) (nm : String)
    (src : List Nat) (f' : AFile) (tmp' : List Nat) (off' : Nat)
    (rest : List Nat)
    (hpos : 0 < f.size) (hpath : f.fullpath = [nm])
    (hok : process_file sha [] 0 f src = PFRes.ok f' tmp' off' rest) :
    create_index sha [PEntry.pfile f src] [] 0 [] =
      CIRes.ok [(nm, dumpFile f')] off' tmp'
    ∧ f'.offset = PyScalar.ofStr (toString 0)
    ∧ jLookup (dumpFile f') "offset" = some (JVal.str (toString 0))
    ∧ jLookup (dumpFile f') "size" = some (JVal.num f.size)
    ∧ jLookup (dumpFile f') "executable" = some (JVal.bool f.executable)
    ∧ jLookup (dumpFile f') "integrity" = some (JVal.obj
        [("algorithm", JVal.str f'.integrity.algorithm),
         ("hash", JVal.str f'.integrity.hash),
         ("blockSize", JVal.num f'.integrity.blockSize),
         ("blocks", JVal.arr (f'.integrity.blocks.map JVal.str))]) := by
  have hok2 := hok
  rw [process_file, if_neg (by omega)] at hok2
  obtain ⟨ho, hsz, hex, hfp, _, hoff⟩ :=
    processFileLoop_ok sha f 0 _ _ _ _ _ _ _ _ _ _ _ _ hok2
  refine ⟨?_, ho, ?_, ?_, ?_, ?_⟩
  · rw [create_index, hok]
    rw [hpath]
    show (match insertEntry [] [] nm (dumpFile f') with
      | some files' => create_index sha [] files' off' tmp'
      | none => CIRes.exists_or_key_error) = _
    rw [insertEntry]
    rfl
  · rw [dumpFile, jLookup, ho]
    rfl
  · rw [dumpFile, jLookup, hsz]
    rfl
  · rw [dumpFile, jLookup, hex]
    rfl
  · rfl

/-- Instance of `C9_amended`: the spec's own concrete scenario, a 2-byte
file `a.txt` with block size 4. -/
theorem C9_amended_witness :
    create_index (fun _ => "h")
      [PEntry.pfile (handleFileEntry ["a.txt"] 2 false 4) [104, 105]] [] 0 [] =
      CIRes.ok [("a.txt", dumpFile (AFile.mk ["a.txt"] 2 (PyScalar.ofStr "0")
        false (Integrity.mk "SHA256" "h" 4 ["h"])))] 2 [104, 105]
    ∧ (AFile.mk ["a.txt"] 2 (PyScalar.ofStr "0") false
        (Integrity.mk "SHA256" "h" 4 ["h"])).offset =
          PyScalar.ofStr (toString 0)
    ∧ jLookup (dumpFile (AFile.mk ["a.txt"] 2 (PyScalar.ofStr "0") false
        (Integrity.mk "SHA256" "h" 4 ["h"]))) "offset" =
          some (JVal.str (toString 0))
    ∧ jLookup (dumpFile (AFile.mk ["a.txt"] 2 (PyScalar.ofStr "0") false
        (Integrity.mk "SHA256" "h" 4 ["h"]))) "size" =
          some (JVal.num (handleFileEntry ["a.txt"] 2 false 4).size)
    ∧ jLookup (dumpFile (AFile.mk ["a.txt"] 2 (PyScalar.ofStr "0") false
        (Integrity.mk "SHA256" "h" 4 ["h"]))) "executable" =
          some (JVal.bool (handleFileEntry ["a.txt"] 2 false 4).executable)
    ∧ jLookup (dumpFile (AFile.mk ["a.txt"] 2 (PyScalar.ofStr "0") false
        (Integrity.mk "SHA256" "h" 4 ["h"]))) "integrity" =
          some (JVal.obj
            [("algorithm", JVal.str "SHA256"), ("hash", JVal.str "h"),
             ("blockSize", JVal.num 4),
             ("blocks", JVal.arr (["h"].map JVal.str))]) :=
  C9_amended (fun _ => "h") (handleFileEntry ["a.txt"] 2 false 4) "a.txt"
    [104, 105]
    (AFile.mk ["a.txt"] 2 (PyScalar.ofStr "0") false
      (Integrity.mk "SHA256" "h" 4 ["h"]))
    [104, 105] 2 [] (by decide) rfl rfl

end Asardeuce
